import Mathlib

/-! Generators over emulated resumable expressions (`experiment/hello_generator_1.cpp`)

A shallow embedding of the generator adapter of `hello_generator_1.cpp` and of its sample body
`hello_t`, followed by the properties proved about them.

Modelling conventions.

* Objects that C++ mutates in place are passed in and returned (explicit state passing).  A C++
  reference member is modelled by passing the referent in and out of the function.
* `assert` is active (the file includes `<cassert>` and never defines `NDEBUG`).  A failed
  assertion aborts the process: the operation returns `Res.fatal s`, where `s` is the state at the
  moment of the abort.
* Reading through a null or indeterminate pointer is undefined behaviour: a read that does so
  returns `none`.
* `boost::asio::coroutine` and the macros `BOOST_ASIO_CORO_REENTER` / `BOOST_ASIO_CORO_YIELD`
  come from Boost.Asio (`boost/asio/coroutine.hpp`), which the source only includes.  The two
  coroutine bodies of the source are embedded as the state machines their expansions denote.
  In that header
  `BOOST_ASIO_CORO_REENTER(c)` is
  `switch (coroutine_ref _coro_value = c) case -1: if (_coro_value) { goto terminate_coroutine;`
  `terminate_coroutine: _coro_value = -1; goto bail_out_of_coroutine; bail_out_of_coroutine:`
  `break; } else case 0:` followed by the block, and `BOOST_ASIO_CORO_YIELD` is
  `for (_coro_value = (n);;) if (_coro_value == 0) { case (n): ; break; } else`
  `switch (_coro_value ? 0 : 1) for (;;) case -1: if (_coro_value) goto terminate_coroutine;`
  `else for (;;) case 1: if (_coro_value) goto bail_out_of_coroutine; else case 0:` followed by
  the statement, with `n` the line of the yield.  `coroutine_ref` reads and writes `value_` of
  the coroutine; its destructor sets `value_ = -1` unless `_coro_value` was assigned.  So a call
  of a coroutine in state `-1` assigns `-1` and returns; a call in state `0` runs the block from
  its start; a call in state `n` continues after the yield statement `n`; a yield statement
  assigns `n`, runs its statement and returns; leaving the block without a yield assigns `-1`.
-/

namespace P1134

/-! ## Outcomes, addresses, the thread's storage -/

/-- Outcome of running a piece of the program on a state of type `S`: it returns normally in
state `s`, or the run stops there abnormally (a failed `assert` aborts the process) and `s` is
the state at that moment. -/
inductive Res (S : Type) where
  | ok (s : S)
  | fatal (s : S)
  deriving DecidableEq

/-- The state an outcome carries. -/
def Res.state {S : Type} : Res S → S
  | .ok s => s
  | .fatal s => s

/-- Whether the outcome is a normal return. -/
def Res.isOk {S : Type} : Res S → Bool
  | .ok _ => true
  | .fatal _ => false

/-- Addresses of storage cells holding a `T` (the targets of the `void*` result pointer). -/
abbrev Addr := Nat

/-- The address `&generated_type_marker<T>`: one `inline const int` per type `T`, so distinct
types have distinct markers. -/
abbrev Marker := Nat

/-- The storage one thread of control sees: the two `thread_local` pointers behind
`generated_result()` and `generated_type()` (both zero-initialised, so `none` = null at thread
start), and the cells that a `void*` may point to (`none` = no object with a value there). -/
structure Machine (T : Type) where
  generated_result : Option Addr
  generated_type : Option Marker
  mem : Addr → Option T

/-- Assignment through a `T*`: the cell at `a` now holds `v`. -/
def store {T : Type} (mem : Addr → Option T) (a : Addr) (v : T) : Addr → Option T :=
  fun x => if x = a then some v else mem x

/-- A thread that has just started: both thread-local pointers are null and no cell holds a
value. -/
def Machine.fresh (T : Type) : Machine T :=
  { generated_result := none, generated_type := none, mem := fun _ => none }

/-! ## `boost::asio::coroutine` -/

/-- The class `boost::asio::coroutine` of Boost.Asio: a single `int value_`, `0` in the initial
state, `-1` in the terminal state, and the label of the last `BOOST_ASIO_CORO_YIELD` in
between. -/
structure coroutine where
  value_ : Int
  deriving DecidableEq

/-- `coroutine::coroutine() : value_(0)`. -/
def coroutine.init : coroutine := { value_ := 0 }

/-- `bool coroutine::is_complete() const { return value_ == -1; }`. -/
def coroutine.is_complete (c : coroutine) : Bool := c.value_ == -1

/-! ## Bodies and `resumable_t` -/

/-- What the templates require of a user `Body` with state `σ`, run on a thread whose cells hold
`T`: `operator()()` (one invocation: from where it left off to the next suspension point or to
completion) and the inherited `is_complete()`. -/
structure Body (σ T : Type) where
  call : σ → Machine T → Res (σ × Machine T)
  is_complete : σ → Bool

/-- The class `resumable_t<Body>`: owns one `Body` by value. -/
structure resumable_t (β : Type) where
  body_ : β
  deriving DecidableEq

/-- `void resumable_t::resume() { body_(); }`, where `call` is `Body::operator()()` and `E` is
the storage outside the body that the call can reach. -/
def resumable_t.resume {β E : Type} (call : β → E → Res (β × E)) (r : resumable_t β)
    (e : E) : Res (resumable_t β × E) :=
  match call r.body_ e with
  | .ok (s, e') => .ok ({ body_ := s }, e')
  | .fatal (s, e') => .fatal ({ body_ := s }, e')

/-- `bool resumable_t::ready() const noexcept { return body_.is_complete(); }`, where
`is_complete` is `Body::is_complete()`. -/
def resumable_t.ready {β : Type} (is_complete : β → Bool) (r : resumable_t β) : Bool :=
  is_complete r.body_

/-- `void resumable_t::result() {}`. -/
def resumable_t.result {β : Type} (_r : resumable_t β) : Unit := ()

/-! ## The yield channel and `yield_t` -/

/-- The object `yield_t<T>`, identified by the address of its member `T value_`; the content of
`value_` is the cell `mem value_` of the machine. -/
structure yield_t where
  value_ : Addr
  deriving DecidableEq

/-- The call `yield_t<T>::operator()(T value)`:
`assert(generated_type() == &generated_type_marker<T>); value_ = std::move(value);`
`generated_result() = &value_;`. -/
def yield_t.call {T : Type} (mT : Marker) (y : yield_t) (value : T) (m : Machine T) :
    Res (Machine T) :=
  if m.generated_type = some mT then
    let m1 : Machine T := { m with mem := store m.mem y.value_ value }
    .ok { m1 with generated_result := some y.value_ }
  else
    .fatal m

/-! ## `generator_t` -/

/-- What a `void**` of this program can point to: its only `void*` object, the thread-local
pointer behind `generated_result()`. -/
inductive ResultSlot where
  | generated_result
  deriving DecidableEq

/-- The class `generator_t::entry_point : boost::asio::coroutine`, with its member `Body body_`.
Its other member, the reference `void**& result_`, refers to the member `result_` of the
enclosing generator and is passed to `entry_point.call` together with the machine. -/
structure entry_point (σ : Type) extends coroutine where
  body_ : σ
  deriving DecidableEq

/-- The label of the one `BOOST_ASIO_CORO_YIELD` of `entry_point::operator()`: the macro expands
to `BOOST_ASIO_CORO_YIELD_IMPL(__LINE__)`, and the statement is on line 154 of the source. -/
def entry_point.yield_label : Int := 154

/-- The rest of `entry_point::operator()` once a `body_()` of the `for` statement has returned:
the test `!body_.is_complete()`.  When it holds the loop body `BOOST_ASIO_CORO_YIELD;` runs:
`_coro_value = 154`, the empty statement, `goto bail_out_of_coroutine`.  When it fails the loop
and the reenter block are left with `_coro_value` unmodified, and `~coroutine_ref()` sets
`value_ = -1`. -/
def entry_point.after_body {σ T : Type} (b : Body σ T) (s : σ) : entry_point σ :=
  if b.is_complete s then { value_ := -1, body_ := s }
  else { value_ := entry_point.yield_label, body_ := s }

/-- The call `generator_t<T, Body>::entry_point::operator()()`:
`BOOST_ASIO_CORO_REENTER(this) { result_ = &generated_result();`
`generated_type() = &generated_type_marker<T>;`
`for (body_(); !body_.is_complete(); body_()) BOOST_ASIO_CORO_YIELD; }`.
The reenter block is a `switch` on `value_`:
* `case -1:` jumps to `terminate_coroutine`, which sets `_coro_value = -1` and leaves the switch,
  so nothing of the block runs;
* `case 0:` runs the block from its first statement;
* `case 154:` (inside the yield statement) leaves the yield statement, so the `for` statement
  goes on with its increment `body_()` and then its test;
* any other value has no label: the switch body is skipped and `~coroutine_ref()` sets `-1`.
When `body_()` aborts, `value_` is what it was on entry. -/
def entry_point.call {σ T : Type} (b : Body σ T) (mT : Marker) (ep : entry_point σ)
    (e : Option ResultSlot × Machine T) :
    Res (entry_point σ × (Option ResultSlot × Machine T)) :=
  if ep.value_ = -1 then
    .ok ({ value_ := -1, body_ := ep.body_ }, e)
  else if ep.value_ = 0 then
    let result_ : Option ResultSlot := some ResultSlot.generated_result
    let m : Machine T := { e.2 with generated_type := some mT }
    match b.call ep.body_ m with
    | .ok (s, m') => .ok (entry_point.after_body b s, (result_, m'))
    | .fatal (s, m') => .fatal ({ value_ := 0, body_ := s }, (result_, m'))
  else if ep.value_ = entry_point.yield_label then
    match b.call ep.body_ e.2 with
    | .ok (s, m') => .ok (entry_point.after_body b s, (e.1, m'))
    | .fatal (s, m') => .fatal ({ value_ := entry_point.yield_label, body_ := s }, (e.1, m'))
  else
    .ok ({ value_ := -1, body_ := ep.body_ }, e)

/-- The inherited `entry_point::is_complete()`. -/
def entry_point.is_complete {σ : Type} (ep : entry_point σ) : Bool :=
  ep.tocoroutine.is_complete

/-- The class `generator_t<T, Body>`: `void** result_` (`none` while indeterminate) and
`resumable_t<entry_point> resumable_`. -/
structure generator_t (σ : Type) where
  result_ : Option ResultSlot
  resumable_ : resumable_t (entry_point σ)
  deriving DecidableEq

/-- The class `generator_t::end_t {}`. -/
structure end_t where
  deriving DecidableEq

/-- The expression `resumable_.resume()` inside a member of `generator_t`: the entry point runs
with its reference member bound to this generator's `result_`. -/
def generator_t.resumable_resume {σ T : Type} (b : Body σ T) (mT : Marker) (g : generator_t σ)
    (m : Machine T) : Res (generator_t σ × Machine T) :=
  match resumable_t.resume (entry_point.call b mT) g.resumable_ (g.result_, m) with
  | .ok (r, (res, m')) => .ok ({ result_ := res, resumable_ := r }, m')
  | .fatal (r, (res, m')) => .fatal ({ result_ := res, resumable_ := r }, m')

/-- The generator as its member initialisers leave it, before the constructor body runs:
`resumable_(result_, std::move(b))` with `result_` still indeterminate and the entry point, a
`boost::asio::coroutine`, in its initial state. -/
def generator_t.init {σ : Type} (body : σ) : generator_t σ :=
  { result_ := none, resumable_ := { body_ := { value_ := 0, body_ := body } } }

/-- The constructor `generator_t(Body b) : resumable_(result_, std::move(b))`
`{ resumable_.resume(); }`. -/
def generator_t.ctor {σ T : Type} (b : Body σ T) (mT : Marker) (body : σ) (m : Machine T) :
    Res (generator_t σ × Machine T) :=
  generator_t.resumable_resume b mT (generator_t.init body) m

/-- The function `generator<T>(Body b) { return generator_t<T, Body>(std::move(b)); }`. -/
def generator {σ T : Type} (b : Body σ T) (mT : Marker) (body : σ) (m : Machine T) :
    Res (generator_t σ × Machine T) :=
  generator_t.ctor b mT body m

/-- `end_t generator_t::end() { return {}; }`. -/
def generator_t.end_ {σ : Type} (_g : generator_t σ) : end_t := {}

/-- `T iterator::operator*() { return *static_cast<T*>(*self_.result_); }`, with the generator
`self_` refers to passed as `self_`. -/
def generator_t.iterator.deref {σ T : Type} (self_ : generator_t σ) (m : Machine T) : Option T :=
  match self_.result_ with
  | none => none
  | some ResultSlot.generated_result =>
    match m.generated_result with
    | none => none
    | some a => m.mem a

/-- `void iterator::operator++() { self_.resumable_.resume(); }`. -/
def generator_t.iterator.incr {σ T : Type} (b : Body σ T) (mT : Marker) (self_ : generator_t σ)
    (m : Machine T) : Res (generator_t σ × Machine T) :=
  generator_t.resumable_resume b mT self_ m

/-- `bool iterator::operator==(end_t) const { return self_.resumable_.ready(); }`. -/
def generator_t.iterator.eq {σ : Type} (self_ : generator_t σ) (_e : end_t) : Bool :=
  resumable_t.ready entry_point.is_complete self_.resumable_

/-- `bool iterator::operator!=(end_t) const { return !self_.resumable_.ready(); }`. -/
def generator_t.iterator.ne {σ : Type} (self_ : generator_t σ) (_e : end_t) : Bool :=
  !resumable_t.ready entry_point.is_complete self_.resumable_

/-! ## The sample body `hello_t` and the consumer loop -/

/-- The marker `&generated_type_marker<char>`. -/
def char_marker : Marker := 1

/-- The terminator of a C string. -/
def NUL : Char := Char.ofNat 0

/-- The struct `hello_t : boost::asio::coroutine` local to `hello`: `const char* p` and
`yield_t<char> yield`.  The pointer `p` into a null-terminated string is modelled by the
characters from `p` on, the terminator left implicit: `*p` is the head, or `NUL` when the list is
empty, and `p++` drops the head. -/
structure hello_t extends coroutine where
  p : List Char
  yield : yield_t
  deriving DecidableEq

/-- The label of the `BOOST_ASIO_CORO_YIELD` of `hello_t::operator()`, on line 210. -/
def hello_t.yield_label : Int := 210

/-- The statement `while (*p) BOOST_ASIO_CORO_YIELD yield(*p++);` of `hello_t::operator()` from
its test on.  When `*p` is non-zero the yield statement runs: `_coro_value = 210`, then
`yield(*p++)`, then `goto bail_out_of_coroutine`.  Otherwise the reenter block is left with
`_coro_value` unmodified and `~coroutine_ref()` sets `value_ = -1`. -/
def hello_t.loop (h : hello_t) (m : Machine Char) : Res (hello_t × Machine Char) :=
  if h.p.headD NUL ≠ NUL then
    let h' : hello_t := { value_ := hello_t.yield_label, p := h.p.tail, yield := h.yield }
    match yield_t.call char_marker h.yield (h.p.headD NUL) m with
    | .ok m' => .ok (h', m')
    | .fatal m' => .fatal (h', m')
  else
    .ok ({ value_ := -1, p := h.p, yield := h.yield }, m)

/-- The call `hello_t::operator()()`:
`BOOST_ASIO_CORO_REENTER(this) { while (*p) BOOST_ASIO_CORO_YIELD yield(*p++); }`.
`case -1:` terminates at once, `case 0:` enters the loop at its test, `case 210:` leaves the
yield statement, which is the whole loop body, so the loop goes on with its test; any other value
skips the block and `~coroutine_ref()` sets `-1`. -/
def hello_t.call (h : hello_t) (m : Machine Char) : Res (hello_t × Machine Char) :=
  if h.value_ = -1 then
    .ok ({ value_ := -1, p := h.p, yield := h.yield }, m)
  else if h.value_ = 0 then
    hello_t.loop h m
  else if h.value_ = hello_t.yield_label then
    hello_t.loop h m
  else
    .ok ({ value_ := -1, p := h.p, yield := h.yield }, m)

/-- The type `hello_t` as a `Body`. -/
def hello_body : Body hello_t Char :=
  { call := hello_t.call, is_complete := fun h => h.tocoroutine.is_complete }

/-- The constructor `hello_t(const char* captured_p) : p(captured_p)`; `a` is the address at which
the member `yield.value_` lives once the body has been moved into its generator. -/
def hello_t.ctor (a : Addr) (captured_p : List Char) : hello_t :=
  { value_ := 0, p := captured_p, yield := { value_ := a } }

/-- The function `hello(const char* p) { ... return generator<char>(hello_t(p)); }`. -/
def hello (a : Addr) (p : List Char) (m : Machine Char) :
    Res (generator_t hello_t × Machine Char) :=
  generator hello_body char_marker (hello_t.ctor a p) m

/-- How a run of the consumer loop ends, with the values handed to the consumer so far and the
state reached. -/
inductive Loop (σ T : Type) where
  | finished (out : List T) (g : generator_t σ) (m : Machine T)
  | aborted (out : List T) (g : generator_t σ) (m : Machine T)
  | undefined (out : List T) (g : generator_t σ) (m : Machine T)
  | out_of_fuel (out : List T) (g : generator_t σ) (m : Machine T)

/-- The values a run of the consumer loop handed to the consumer. -/
def Loop.out {σ T : Type} : Loop σ T → List T
  | .finished out _ _ => out
  | .aborted out _ _ => out
  | .undefined out _ _ => out
  | .out_of_fuel out _ _ => out

/-- The range-based `for` of `main`, `for (auto c : g) putchar(c);`, that is
`for (auto it = g.begin(), e = g.end(); it != e; ++it) { auto c = *it; putchar(c); }`,
with the consumed values appended to `out`.  `fuel` bounds the number of iterations; the run is
`finished` when `it != e` fails, `aborted` when `++it` aborts, `undefined` when `*it` reads
through a null or indeterminate pointer. -/
def for_each {σ T : Type} (b : Body σ T) (mT : Marker) :
    Nat → generator_t σ → Machine T → List T → Loop σ T
  | 0, g, m, out =>
    if generator_t.iterator.ne g g.end_ then .out_of_fuel out g m else .finished out g m
  | fuel + 1, g, m, out =>
    if generator_t.iterator.ne g g.end_ then
      match generator_t.iterator.deref g m with
      | none => .undefined out g m
      | some c =>
        match generator_t.iterator.incr b mT g m with
        | .ok (g', m') => for_each b mT fuel g' m' (out ++ [c])
        | .fatal (g', m') => .aborted (out ++ [c]) g' m'
    else .finished out g m

/-- The run of `k` successive `resumable_.resume()` calls on a generator, stopping at the first
abort.  The constructor performs one such call on `generator_t.init`, every `++it` one more. -/
def resume_n {σ T : Type} (b : Body σ T) (mT : Marker) :
    Nat → generator_t σ × Machine T → Res (generator_t σ × Machine T)
  | 0, s => .ok s
  | k + 1, s =>
    match generator_t.resumable_resume b mT s.1 s.2 with
    | .ok s' => resume_n b mT k s'
    | .fatal s' => .fatal s'

/-- The characters of the C string at `p` that come before its terminator. -/
def before_terminator (p : List Char) : List Char :=
  p.takeWhile (fun c => c != NUL)

/-- The generator of `hello(p)` after `n` calls of `resumable_.resume()`, the one of the
constructor included: `hello a p m` is `hello_resumed a p m 1`, and each `++it` adds one. -/
def hello_resumed (a : Addr) (p : List Char) (m : Machine Char) (n : Nat) :
    Res (generator_t hello_t × Machine Char) :=
  resume_n hello_body char_marker n (generator_t.init (hello_t.ctor a p), m)

/-- The operations a consumer can apply to a generator and its tokens. -/
inductive Op where
  | begin
  | compare_eq
  | compare_ne
  | deref
  | incr
  deriving DecidableEq

/-- One consumer operation on a generator.  `begin()` and the comparisons with `end()` change
nothing; `*it` changes nothing when it reads a value and stops the run when the read is
undefined; `++it` is `resumable_.resume()`. -/
def Op.run {σ T : Type} (b : Body σ T) (mT : Marker) :
    Op → generator_t σ × Machine T → Res (generator_t σ × Machine T)
  | .begin, s => .ok s
  | .compare_eq, s => .ok s
  | .compare_ne, s => .ok s
  | .deref, s =>
    match generator_t.iterator.deref s.1 s.2 with
    | some _ => .ok s
    | none => .fatal s
  | .incr, s => generator_t.iterator.incr b mT s.1 s.2

/-- A sequence of consumer operations, stopping at the first one that does not return. -/
def run_ops {σ T : Type} (b : Body σ T) (mT : Marker) :
    List Op → generator_t σ × Machine T → Res (generator_t σ × Machine T)
  | [], s => .ok s
  | op :: ops, s =>
    match Op.run b mT op s with
    | .ok s' => run_ops b mT ops s'
    | .fatal s' => .fatal s'

/-! ## Tokens as references -/

/-- The class `generator_t::iterator`: its only member is the reference `generator_t& self_`,
here the address of the generator. -/
structure iterator where
  self_ : Addr
  deriving DecidableEq

/-- The generator objects alive on the thread, by address, and the thread's storage. -/
structure Objects (σ T : Type) where
  gen : Addr → Option (generator_t σ)
  m : Machine T

/-- `iterator generator_t::begin() { return *this; }` through the converting constructor
`iterator(generator_t& self) : self_(self)`, called on the generator at address `this`. -/
def generator_t.begin {σ T : Type} (this : Addr) (w : Objects σ T) : iterator × Objects σ T :=
  ({ self_ := this }, w)

/-- `operator*` of a token: `generator_t.iterator.deref` on the generator the token refers to. -/
def iterator.deref {σ T : Type} (it : iterator) (w : Objects σ T) : Option T :=
  match w.gen it.self_ with
  | none => none
  | some g => generator_t.iterator.deref g w.m

/-- `operator==(end_t)` of a token (`none` when the reference dangles). -/
def iterator.eq {σ T : Type} (it : iterator) (e : end_t) (w : Objects σ T) : Option Bool :=
  match w.gen it.self_ with
  | none => none
  | some g => some (generator_t.iterator.eq g e)

/-- `operator!=(end_t)` of a token (`none` when the reference dangles). -/
def iterator.ne {σ T : Type} (it : iterator) (e : end_t) (w : Objects σ T) : Option Bool :=
  match w.gen it.self_ with
  | none => none
  | some g => some (generator_t.iterator.ne g e)

/-- `operator++` of a token: `generator_t.iterator.incr` on the generator the token refers to,
which is updated in place. -/
def iterator.incr {σ T : Type} (b : Body σ T) (mT : Marker) (it : iterator) (w : Objects σ T) :
    Res (Objects σ T) :=
  match w.gen it.self_ with
  | none => .fatal w
  | some g =>
    match generator_t.iterator.incr b mT g w.m with
    | .ok (g', m') =>
      .ok { gen := fun x => if x = it.self_ then some g' else w.gen x, m := m' }
    | .fatal (g', m') =>
      .fatal { gen := fun x => if x = it.self_ then some g' else w.gen x, m := m' }

/-- The generator of `hello("Hi")`, built on a fresh thread at address `5`, as the one object
of the thread. -/
def sample_objects : Objects hello_t Char :=
  { gen := fun x =>
      if x = 5 then some (hello 5 ['H', 'i'] (Machine.fresh Char)).state.1 else none,
    m := (hello 5 ['H', 'i'] (Machine.fresh Char)).state.2 }

/-! ## Describing what a body does -/

/-- The step of body `b` from state `s` is one successful `yield(v)` through a yield object of the
body and nothing else, and it leaves the body suspended, not complete, in state `s1`. -/
def YieldsStep {σ T : Type} (b : Body σ T) (mT : Marker) (s : σ) (v : T) (s1 : σ) : Prop :=
  b.is_complete s1 = false ∧
    ∃ y : yield_t, ∀ m m1 : Machine T,
      yield_t.call mT y v m = .ok m1 → b.call s m = .ok (s1, m1)

/-- The step of body `b` from state `s` completes the body, in state `s1`, without yielding: it
leaves the thread's storage as it found it. -/
def CompletesStep {σ T : Type} (b : Body σ T) (s s1 : σ) : Prop :=
  b.is_complete s1 = true ∧ ∀ m : Machine T, b.call s m = .ok (s1, m)

/-- From state `s` the body yields the values `vs`, one per step and in that order, and completes
without yielding on the step after the last of them. -/
inductive Yields {σ T : Type} (b : Body σ T) (mT : Marker) : σ → List T → Prop where
  | done {s s1 : σ} : CompletesStep b s s1 → Yields b mT s []
  | step {s s1 : σ} {v : T} {vs : List T} :
      YieldsStep b mT s v s1 → Yields b mT s1 vs → Yields b mT s (v :: vs)

/-- The generator whose entry point is suspended at its yield statement over body state `s`. -/
def suspended {σ : Type} (s : σ) : generator_t σ :=
  { result_ := some ResultSlot.generated_result,
    resumable_ := { body_ := { value_ := entry_point.yield_label, body_ := s } } }

/-- The generator whose entry point has completed over body state `s`. -/
def exhausted {σ : Type} (s : σ) : generator_t σ :=
  { result_ := some ResultSlot.generated_result,
    resumable_ := { body_ := { value_ := -1, body_ := s } } }

/-- The run of `k` successive invocations `body_()` of a user body, stopping at the first
abort. -/
def body_n {σ T : Type} (b : Body σ T) : Nat → σ × Machine T → Res (σ × Machine T)
  | 0, st => .ok st
  | k + 1, st =>
    match body_n b k st with
    | .ok st1 => b.call st1.1 st1.2
    | .fatal st1 => .fatal st1

/-- The calls `y(v)` of `yield_t<T>::operator()` listed in `ys`, one after the other, stopping at
the first that aborts. -/
def run_yields {T : Type} (mT : Marker) : List (yield_t × T) → Machine T → Res (Machine T)
  | [], m => .ok m
  | (y, v) :: ys, m =>
    match yield_t.call mT y v m with
    | .ok m1 => run_yields mT ys m1
    | .fatal m1 => .fatal m1

/-- The body `b` reaches the thread's storage only through `yield_t<T>`: what a step does to the
storage is a sequence of calls of `yield_t<T>::operator()`, the step returns when they all
return, and it aborts where the first failing one aborts. -/
def YieldsOnlyThrough {σ T : Type} (b : Body σ T) (mT : Marker) : Prop :=
  ∀ s : σ, ∃ (ys : List (yield_t × T)) (s1 : σ), ∀ m : Machine T,
    (∀ m1, run_yields mT ys m = .ok m1 → b.call s m = .ok (s1, m1)) ∧
    (∀ m1, run_yields mT ys m = .fatal m1 → ∃ s2, b.call s m = .fatal (s2, m1))

/-- The step of body `b` from state `s` executes a call `y(v)` of `yield_t<T>::operator()` before
it touches the thread's storage in any other way: when that call aborts, the step aborts
there. -/
def StartsWithYield {σ T : Type} (b : Body σ T) (mT : Marker) (s : σ) : Prop :=
  ∃ (y : yield_t) (v : T), ∀ m m1 : Machine T,
    yield_t.call mT y v m = .fatal m1 → ∃ s2, b.call s m = .fatal (s2, m1)

/-- The step of body `b` from state `s` suspends the body, in state `s1`, without touching the
thread's storage. -/
def SilentStep {σ T : Type} (b : Body σ T) (s s1 : σ) : Prop :=
  b.is_complete s1 = false ∧ ∀ m : Machine T, b.call s m = .ok (s1, m)

/-- From state `s` the body suspends `i` times without touching the thread's storage, and the
step after those starts with a yield: that yield is the next one the body executes. -/
inductive YieldsNext {σ T : Type} (b : Body σ T) (mT : Marker) : σ → Nat → Prop where
  | now {s : σ} : StartsWithYield b mT s → YieldsNext b mT s 0
  | later {s s1 : σ} {i : Nat} :
      SilentStep b s s1 → YieldsNext b mT s1 i → YieldsNext b mT s (i + 1)

/-- A body written against the same interface as `hello_t`, one of whose steps suspends without
yielding:
`template<class T> struct stutter_t : boost::asio::coroutine { T v; yield_t<T> yield;`
`void operator()() { BOOST_ASIO_CORO_REENTER(this) { BOOST_ASIO_CORO_YIELD yield(v);`
`BOOST_ASIO_CORO_YIELD; } } };`. -/
structure stutter_t (T : Type) extends coroutine where
  v : T
  yield : yield_t

/-- The call `stutter_t<T>::operator()()`, the yield statements labelled `1` and `2`:
`case 0:` runs `_coro_value = 1; yield(v);` and returns; `case 1:` runs the second yield
statement, `_coro_value = 2;` and the empty statement, and returns; `case 2:` leaves the block,
and `~coroutine_ref()` sets `-1`; `case -1:` and any other value end in `-1` at once. -/
def stutter_t.call {T : Type} (mT : Marker) (h : stutter_t T) (m : Machine T) :
    Res (stutter_t T × Machine T) :=
  if h.value_ = 0 then
    match yield_t.call mT h.yield h.v m with
    | .ok m1 => .ok ({ value_ := 1, v := h.v, yield := h.yield }, m1)
    | .fatal m1 => .fatal ({ value_ := 1, v := h.v, yield := h.yield }, m1)
  else if h.value_ = 1 then
    .ok ({ value_ := 2, v := h.v, yield := h.yield }, m)
  else
    .ok ({ value_ := -1, v := h.v, yield := h.yield }, m)

/-- The type `stutter_t<T>` as a `Body`. -/
def stutter_body {T : Type} (mT : Marker) : Body (stutter_t T) T :=
  { call := stutter_t.call mT, is_complete := fun h => h.tocoroutine.is_complete }

/-- A body that completes on its first step without yielding:
`struct idle_t : boost::asio::coroutine { void operator()() {`
`BOOST_ASIO_CORO_REENTER(this) {} } };`, every call of which ends in state `-1`. -/
def idle_body {T : Type} : Body coroutine T :=
  { call := fun _ m => .ok ({ value_ := -1 }, m), is_complete := coroutine.is_complete }

/-! ## Single steps of the generator -/

section Steps

variable {σ T : Type}

theorem yield_call_ok (mT : Marker) (y : yield_t) (v : T) (m : Machine T)
    (hm : m.generated_type = some mT) :
    yield_t.call mT y v m =
      .ok { generated_result := some y.value_, generated_type := some mT,
            mem := store m.mem y.value_ v } := by
  cases m with
  | mk r t mem =>
    simp only at hm
    subst hm
    simp [yield_t.call]

theorem eq_iff_value (g : generator_t σ) (e : end_t) :
    generator_t.iterator.eq g e = true ↔ g.resumable_.body_.value_ = -1 := by
  simp [generator_t.iterator.eq, resumable_t.ready, entry_point.is_complete,
    coroutine.is_complete]

theorem deref_suspended_exhausted (s s1 : σ) (m : Machine T) :
    generator_t.iterator.deref (exhausted s1) m = generator_t.iterator.deref (suspended s) m :=
  rfl

theorem resume_suspended_yield (b : Body σ T) (mT : Marker) {s s1 : σ} {v : T}
    (h : YieldsStep b mT s v s1) (m : Machine T) (hm : m.generated_type = some mT) :
    ∃ m1, generator_t.resumable_resume b mT (suspended s) m = .ok (suspended s1, m1) ∧
      m1.generated_type = some mT ∧
      generator_t.iterator.deref (suspended s1) m1 = some v := by
  obtain ⟨hc, y, hy⟩ := h
  have hcall := hy m _ (yield_call_ok mT y v m hm)
  refine ⟨{ generated_result := some y.value_, generated_type := some mT,
            mem := store m.mem y.value_ v }, ?_, rfl, ?_⟩
  · simp [generator_t.resumable_resume, resumable_t.resume, entry_point.call, suspended,
      entry_point.yield_label, hcall, entry_point.after_body, hc]
  · simp [generator_t.iterator.deref, suspended, store]

theorem resume_suspended_complete (b : Body σ T) (mT : Marker) {s s1 : σ}
    (h : CompletesStep b s s1) (m : Machine T) :
    generator_t.resumable_resume b mT (suspended s) m = .ok (exhausted s1, m) := by
  obtain ⟨hc, hcall⟩ := h
  simp [generator_t.resumable_resume, resumable_t.resume, entry_point.call, suspended,
    exhausted, entry_point.yield_label, hcall, entry_point.after_body, hc]

theorem resume_init_yield (b : Body σ T) (mT : Marker) {s s1 : σ} {v : T}
    (h : YieldsStep b mT s v s1) (m : Machine T) :
    ∃ m1, generator_t.resumable_resume b mT (generator_t.init s) m = .ok (suspended s1, m1) ∧
      m1.generated_type = some mT ∧
      generator_t.iterator.deref (suspended s1) m1 = some v := by
  obtain ⟨hc, y, hy⟩ := h
  have hcall := hy { m with generated_type := some mT } _
    (yield_call_ok mT y v { m with generated_type := some mT } rfl)
  refine ⟨{ generated_result := some y.value_, generated_type := some mT,
            mem := store m.mem y.value_ v }, ?_, rfl, ?_⟩
  · simp [generator_t.resumable_resume, resumable_t.resume, entry_point.call,
      generator_t.init, suspended, hcall, entry_point.after_body, hc]
  · simp [generator_t.iterator.deref, suspended, store]

theorem resume_init_complete (b : Body σ T) (mT : Marker) {s s1 : σ}
    (h : CompletesStep b s s1) (m : Machine T) :
    generator_t.resumable_resume b mT (generator_t.init s) m =
      .ok (exhausted s1, { m with generated_type := some mT }) := by
  obtain ⟨hc, hcall⟩ := h
  simp [generator_t.resumable_resume, resumable_t.resume, entry_point.call,
    generator_t.init, exhausted, hcall, entry_point.after_body, hc]

theorem resume_exhausted (b : Body σ T) (mT : Marker) (g : generator_t σ) (m : Machine T)
    (h : generator_t.iterator.eq g g.end_ = true) :
    generator_t.resumable_resume b mT g m = .ok (g, m) := by
  rw [eq_iff_value] at h
  obtain ⟨res, ⟨⟨⟨v⟩, s⟩⟩⟩ := g
  simp only at h
  subst h
  simp [generator_t.resumable_resume, resumable_t.resume, entry_point.call]

end Steps

/-! ## The consumer loop over a yielding body -/

section Loops

variable {σ T : Type}

theorem eq_suspended (s : σ) (e : end_t) : generator_t.iterator.eq (suspended s) e = false := by
  simp [generator_t.iterator.eq, resumable_t.ready, entry_point.is_complete,
    coroutine.is_complete, suspended, entry_point.yield_label]

theorem eq_exhausted (s : σ) (e : end_t) : generator_t.iterator.eq (exhausted s) e = true := by
  simp [generator_t.iterator.eq, resumable_t.ready, entry_point.is_complete,
    coroutine.is_complete, exhausted]

theorem for_each_at_end (b : Body σ T) (mT : Marker) (fuel : Nat) (g : generator_t σ)
    (m : Machine T) (out : List T) (h : generator_t.iterator.eq g g.end_ = true) :
    for_each b mT fuel g m out = .finished out g m := by
  have hne : generator_t.iterator.ne g g.end_ = false := by
    simpa [generator_t.iterator.ne, generator_t.iterator.eq] using h
  cases fuel <;> simp [for_each, hne]

theorem for_each_iteration (b : Body σ T) (mT : Marker) (fuel : Nat) {g g1 : generator_t σ}
    {m m1 : Machine T} (out : List T) {v : T}
    (hne : generator_t.iterator.eq g g.end_ = false)
    (hd : generator_t.iterator.deref g m = some v)
    (hi : generator_t.resumable_resume b mT g m = .ok (g1, m1)) :
    for_each b mT (fuel + 1) g m out = for_each b mT fuel g1 m1 (out ++ [v]) := by
  have hne1 : generator_t.iterator.ne g g.end_ = true := by
    simpa [generator_t.iterator.ne, generator_t.iterator.eq] using hne
  simp [for_each, hne1, hd, generator_t.iterator.incr, hi]

theorem run_suspended (b : Body σ T) (mT : Marker) :
    ∀ (vs : List T) (s : σ) (v : T) (m : Machine T) (out : List T) (fuel : Nat),
      Yields b mT s vs → m.generated_type = some mT →
      generator_t.iterator.deref (suspended s) m = some v → vs.length + 1 ≤ fuel →
      ∃ s1 m1,
        resume_n b mT (vs.length + 1) (suspended s, m) = .ok (exhausted s1, m1) ∧
        for_each b mT fuel (suspended s) m out = .finished (out ++ v :: vs) (exhausted s1) m1 ∧
        generator_t.iterator.deref (exhausted s1) m1 = (v :: vs).getLast? := by
  intro vs
  induction vs with
  | nil =>
    intro s v m out fuel hy hm hd hf
    obtain ⟨k, rfl⟩ : ∃ k, fuel = k + 1 := ⟨fuel - 1, by omega⟩
    cases hy with
    | @done _ s1 hc =>
      have hr := resume_suspended_complete b mT hc m
      refine ⟨s1, m, ?_, ?_, ?_⟩
      · simp [resume_n, hr]
      · rw [for_each_iteration b mT k out (eq_suspended s _) hd hr]
        exact for_each_at_end b mT k _ m _ (eq_exhausted s1 _)
      · rw [deref_suspended_exhausted s s1 m, hd]
        rfl
  | cons w ws ih =>
    intro s v m out fuel hy hm hd hf
    obtain ⟨k, rfl⟩ : ∃ k, fuel = k + 1 := ⟨fuel - 1, by omega⟩
    cases hy with
    | @step _ s1 _ _ hstep hrest =>
      obtain ⟨m1, hr, hm1, hd1⟩ := resume_suspended_yield b mT hstep m hm
      have hk : ws.length + 1 ≤ k := by
        simp only [List.length_cons] at hf
        omega
      obtain ⟨s2, m2, h1, h2, h3⟩ := ih s1 w m1 (out ++ [v]) k hrest hm1 hd1 hk
      refine ⟨s2, m2, ?_, ?_, ?_⟩
      · simp only [List.length_cons]
        rw [resume_n, hr]
        exact h1
      · rw [for_each_iteration b mT k out (eq_suspended s _) hd hr, h2]
        simp
      · rw [h3]
        simp [List.getLast?_cons_cons]

/-- From `generator_t.init`, a body that yields `vs` and then completes is driven through by the
constructor and the consumer loop: `vs.length + 1` resumes, the loop hands over `vs`, and the
result slot still leads to the last value yielded (or to what it led to before, if none was). -/
theorem run_init (b : Body σ T) (mT : Marker) (vs : List T) (s : σ) (m : Machine T)
    (fuel : Nat) (hy : Yields b mT s vs) (hf : vs.length ≤ fuel) :
    ∃ g0 m0 s1 m1,
      generator_t.resumable_resume b mT (generator_t.init s) m = .ok (g0, m0) ∧
      resume_n b mT vs.length (g0, m0) = .ok (exhausted s1, m1) ∧
      for_each b mT fuel g0 m0 [] = .finished vs (exhausted s1) m1 ∧
      generator_t.iterator.deref (exhausted s1) m1 =
        (match vs.getLast? with
         | some v => some v
         | none => generator_t.iterator.deref (exhausted s1) m) := by
  cases hy with
  | @done _ s1 hc =>
    refine ⟨exhausted s1, { m with generated_type := some mT }, s1,
      { m with generated_type := some mT }, resume_init_complete b mT hc m, rfl, ?_, rfl⟩
    exact for_each_at_end b mT fuel _ _ _ (eq_exhausted s1 _)
  | @step _ s1 v ws hstep hrest =>
    obtain ⟨m0, hr, hm0, hd0⟩ := resume_init_yield b mT hstep m
    have hk : ws.length + 1 ≤ fuel := by
      simpa [List.length_cons] using hf
    obtain ⟨s2, m2, h1, h2, h3⟩ := run_suspended b mT ws s1 v m0 [] fuel hrest hm0 hd0 hk
    refine ⟨suspended s1, m0, s2, m2, hr, ?_, ?_, ?_⟩
    · simpa [List.length_cons] using h1
    · simpa using h2
    · rw [h3]
      cases h : (v :: ws).getLast? with
      | none => simp at h
      | some x => rfl

theorem for_each_suspended_short (b : Body σ T) (mT : Marker) :
    ∀ (vs : List T) (s : σ) (v : T) (m : Machine T) (out : List T) (fuel : Nat),
      Yields b mT s vs → m.generated_type = some mT →
      generator_t.iterator.deref (suspended s) m = some v → fuel ≤ vs.length →
      ∃ g1 m1,
        for_each b mT fuel (suspended s) m out =
          .out_of_fuel (out ++ (v :: vs).take fuel) g1 m1 := by
  intro vs
  induction vs with
  | nil =>
    intro s v m out fuel hy hm hd hf
    obtain rfl : fuel = 0 := by simpa using hf
    refine ⟨suspended s, m, ?_⟩
    simp [for_each, generator_t.iterator.ne, generator_t.iterator.eq, resumable_t.ready,
      entry_point.is_complete, coroutine.is_complete, suspended, entry_point.yield_label]
  | cons w ws ih =>
    intro s v m out fuel hy hm hd hf
    cases fuel with
    | zero =>
      refine ⟨suspended s, m, ?_⟩
      simp [for_each, generator_t.iterator.ne, generator_t.iterator.eq, resumable_t.ready,
        entry_point.is_complete, coroutine.is_complete, suspended, entry_point.yield_label]
    | succ k =>
      cases hy with
      | @step _ s1 _ _ hstep hrest =>
        obtain ⟨m1, hr, hm1, hd1⟩ := resume_suspended_yield b mT hstep m hm
        have hk : k ≤ ws.length := by
          simp only [List.length_cons] at hf
          omega
        obtain ⟨g2, m2, h2⟩ := ih s1 w m1 (out ++ [v]) k hrest hm1 hd1 hk
        refine ⟨g2, m2, ?_⟩
        rw [for_each_iteration b mT k out (eq_suspended s _) hd hr, h2]
        simp

/-- With less fuel than the body has values, the consumer loop over the new generator runs out
of fuel, having handed over that many of the values. -/
theorem for_each_init_short (b : Body σ T) (mT : Marker) (vs : List T) (s : σ) (m : Machine T)
    (fuel : Nat) (hy : Yields b mT s vs) (hf : fuel < vs.length) :
    ∃ g0 m0 g1 m1,
      generator_t.resumable_resume b mT (generator_t.init s) m = .ok (g0, m0) ∧
      for_each b mT fuel g0 m0 [] = .out_of_fuel (vs.take fuel) g1 m1 := by
  cases hy with
  | done hc => simp at hf
  | @step _ s1 v ws hstep hrest =>
    obtain ⟨m0, hr, hm0, hd0⟩ := resume_init_yield b mT hstep m
    have hk : fuel ≤ ws.length := by
      simp only [List.length_cons] at hf
      omega
    obtain ⟨g1, m1, h1⟩ := for_each_suspended_short b mT ws s1 v m0 [] fuel hrest hm0 hd0 hk
    exact ⟨suspended s1, m0, g1, m1, hr, by simpa using h1⟩

theorem resume_n_one (b : Body σ T) (mT : Marker) (g : generator_t σ) (m : Machine T) :
    resume_n b mT 1 (g, m) = generator_t.resumable_resume b mT g m := by
  simp only [resume_n]
  cases generator_t.resumable_resume b mT g m <;> rfl

theorem resume_n_succ_right (b : Body σ T) (mT : Marker) :
    ∀ (k : Nat) (st st1 : generator_t σ × Machine T),
      resume_n b mT k st = .ok st1 →
      resume_n b mT (k + 1) st = generator_t.resumable_resume b mT st1.1 st1.2 := by
  intro k
  induction k with
  | zero =>
    intro st st1 h
    simp only [resume_n, Res.ok.injEq] at h
    subst h
    exact resume_n_one b mT st.1 st.2
  | succ k ih =>
    intro st st1 h
    rw [resume_n] at h
    rw [resume_n]
    cases hr : generator_t.resumable_resume b mT st.1 st.2 with
    | ok st2 =>
      rw [hr] at h
      exact ih st2 st1 h
    | fatal st2 =>
      rw [hr] at h
      cases h

theorem resume_n_suspended (b : Body σ T) (mT : Marker) :
    ∀ (vs : List T) (s : σ) (v : T) (m : Machine T) (k : Nat),
      Yields b mT s vs → m.generated_type = some mT →
      generator_t.iterator.deref (suspended s) m = some v → k ≤ vs.length →
      ∃ s1 m1,
        resume_n b mT k (suspended s, m) = .ok (suspended s1, m1) ∧
        m1.generated_type = some mT ∧ Yields b mT s1 (vs.drop k) ∧
        generator_t.iterator.deref (suspended s1) m1 = (v :: vs)[k]? := by
  intro vs
  induction vs with
  | nil =>
    intro s v m k hy hm hd hk
    obtain rfl : k = 0 := by simpa using hk
    exact ⟨s, m, rfl, hm, hy, by simpa using hd⟩
  | cons w ws ih =>
    intro s v m k hy hm hd hk
    cases k with
    | zero => exact ⟨s, m, rfl, hm, hy, by simpa using hd⟩
    | succ k =>
      cases hy with
      | @step _ s1 _ _ hstep hrest =>
        obtain ⟨m1, hr, hm1, hd1⟩ := resume_suspended_yield b mT hstep m hm
        have hk1 : k ≤ ws.length := by
          simp only [List.length_cons] at hk
          omega
        obtain ⟨s2, m2, h1, h2, h3, h4⟩ := ih s1 w m1 k hrest hm1 hd1 hk1
        refine ⟨s2, m2, ?_, h2, by simpa using h3, by simpa using h4⟩
        rw [resume_n, hr]
        exact h1

/-- From `generator_t.init`, resume number `k + 1` of a body that yields `vs` leaves the `k`-th
value of `vs` readable on a generator that is not exhausted. -/
theorem run_init_value (b : Body σ T) (mT : Marker) (vs : List T) (s : σ) (m : Machine T)
    (hy : Yields b mT s vs) (k : Nat) (hk : k < vs.length) :
    ∃ s1 m1,
      resume_n b mT (k + 1) (generator_t.init s, m) = .ok (suspended s1, m1) ∧
      m1.generated_type = some mT ∧ Yields b mT s1 (vs.drop (k + 1)) ∧
      generator_t.iterator.deref (suspended s1) m1 = vs[k]? := by
  cases hy with
  | done hc => simp at hk
  | @step _ s1 v ws hstep hrest =>
    obtain ⟨m0, hr, hm0, hd0⟩ := resume_init_yield b mT hstep m
    have hk1 : k ≤ ws.length := by
      simp only [List.length_cons] at hk
      omega
    obtain ⟨s2, m2, h1, h2, h3, h4⟩ := resume_n_suspended b mT ws s1 v m0 k hrest hm0 hd0 hk1
    refine ⟨s2, m2, ?_, h2, by simpa using h3, h4⟩
    rw [resume_n, hr]
    exact h1

/-- The resume that completes a body yielding `vs` is resume number `vs.length + 1`, and it
leaves the result slot and every cell as the resume before it left them. -/
theorem run_init_last (b : Body σ T) (mT : Marker) (vs : List T) (s : σ) (m : Machine T)
    (hy : Yields b mT s vs) :
    ∃ g0 m0 s1 m1,
      resume_n b mT vs.length (generator_t.init s, m) = .ok (g0, m0) ∧
      resume_n b mT (vs.length + 1) (generator_t.init s, m) = .ok (exhausted s1, m1) ∧
      m1.generated_result = m0.generated_result ∧ m1.mem = m0.mem := by
  cases vs with
  | nil =>
    cases hy with
    | @done _ s1 hc =>
      refine ⟨generator_t.init s, m, s1, { m with generated_type := some mT }, rfl, ?_,
        rfl, rfl⟩
      rw [List.length_nil, resume_n_one]
      exact resume_init_complete b mT hc m
  | cons v ws =>
    obtain ⟨s1, m1, h1, _, h3, _⟩ :=
      run_init_value b mT (v :: ws) s m hy ws.length (by simp)
    have hdrop : (v :: ws).drop (ws.length + 1) = [] := by simp
    rw [hdrop] at h3
    cases h3 with
    | @done _ s2 hc =>
      refine ⟨suspended s1, m1, s2, m1, by simpa using h1, ?_, rfl, rfl⟩
      have h := resume_n_succ_right b mT (ws.length + 1) _ _ h1
      rw [List.length_cons, h]
      exact resume_suspended_complete b mT hc m1

end Loops

/-! ## The sample body -/

theorem hello_t_completes (a : Addr) (p : List Char) (v : Int)
    (hv : v = 0 ∨ v = hello_t.yield_label) (hp : p.headD NUL = NUL) :
    CompletesStep hello_body { value_ := v, p := p, yield := { value_ := a } }
      { value_ := -1, p := p, yield := { value_ := a } } := by
  have hp1 : p.head?.getD NUL = NUL := by simpa using hp
  refine ⟨rfl, fun m => ?_⟩
  rcases hv with rfl | rfl <;>
    simp [hello_body, hello_t.call, hello_t.loop, hp1, hello_t.yield_label]

theorem hello_t_yields_step (a : Addr) (c : Char) (cs : List Char) (v : Int)
    (hv : v = 0 ∨ v = hello_t.yield_label) (hc : c ≠ NUL) :
    YieldsStep hello_body char_marker { value_ := v, p := c :: cs, yield := { value_ := a } } c
      { value_ := hello_t.yield_label, p := cs, yield := { value_ := a } } := by
  refine ⟨rfl, { value_ := a }, fun m m1 hy => ?_⟩
  rcases hv with rfl | rfl <;>
    simp [hello_body, hello_t.call, hello_t.loop, hc, hello_t.yield_label, hy]

theorem hello_t_yields (a : Addr) :
    ∀ (p : List Char) (v : Int), v = 0 ∨ v = hello_t.yield_label →
      Yields hello_body char_marker { value_ := v, p := p, yield := { value_ := a } }
        (p.takeWhile (fun c => c != NUL)) := by
  intro p
  induction p with
  | nil =>
    intro v hv
    exact Yields.done (hello_t_completes a [] v hv rfl)
  | cons c cs ih =>
    intro v hv
    by_cases hc : c = NUL
    · subst hc
      simpa using Yields.done (hello_t_completes a (NUL :: cs) v hv rfl)
    · have ht : (c :: cs).takeWhile (fun c => c != NUL) =
          c :: cs.takeWhile (fun c => c != NUL) := by
        simp [List.takeWhile_cons, hc]
      rw [ht]
      exact Yields.step (hello_t_yields_step a c cs v hv hc)
        (ih hello_t.yield_label (Or.inr rfl))

theorem hello_Hi_yields (a : Addr) :
    Yields hello_body char_marker (hello_t.ctor a ['H', 'i']) ['H', 'i'] :=
  hello_t_yields a ['H', 'i'] 0 (Or.inl rfl)

/-! ## Properties of the generator -/

/-- C1 (order preservation): a body that yields `vs`, one value per step, and completes on the
step after, makes `generator` return normally, and the consumer loop over the result hands the
consumer exactly `vs`, in order, and then stops; it stops in the exhausted state reached by one
`resume()` per consumed value. -/
theorem generator_preserves_order {σ T : Type} (b : Body σ T) (mT : Marker) (body : σ)
    (vs : List T) (m : Machine T) (fuel : Nat) (hy : Yields b mT body vs)
    (hf : vs.length ≤ fuel) :
    ∃ g0 m0 g1 m1,
      generator b mT body m = .ok (g0, m0) ∧
      for_each b mT fuel g0 m0 [] = .finished vs g1 m1 ∧
      resume_n b mT vs.length (g0, m0) = .ok (g1, m1) ∧
      generator_t.iterator.eq g1 g1.end_ = true := by
  obtain ⟨g0, m0, s1, m1, h0, h1, h2, _⟩ := run_init b mT vs body m fuel hy hf
  exact ⟨g0, m0, exhausted s1, m1, h0, h2, h1, eq_exhausted s1 _⟩

/-- Witness for C1: the body of `hello("Hi")` on a fresh thread. -/
theorem generator_preserves_order_witness :
    Yields hello_body char_marker (hello_t.ctor 0 ['H', 'i']) ['H', 'i'] ∧
    ['H', 'i'].length ≤ 2 ∧
    ∃ g0 m0 g1 m1,
      generator hello_body char_marker (hello_t.ctor 0 ['H', 'i']) (Machine.fresh Char) =
        .ok (g0, m0) ∧
      for_each hello_body char_marker 2 g0 m0 [] = .finished ['H', 'i'] g1 m1 ∧
      resume_n hello_body char_marker ['H', 'i'].length (g0, m0) = .ok (g1, m1) ∧
      generator_t.iterator.eq g1 g1.end_ = true :=
  ⟨hello_Hi_yields 0, by decide,
    generator_preserves_order hello_body char_marker (hello_t.ctor 0 ['H', 'i']) ['H', 'i']
      (Machine.fresh Char) 2 (hello_Hi_yields 0) (by decide)⟩

/-- C2 (the sample): for every C string `p`, `hello(p)` is the generator after one resume;
resume number `k + 1`, for `k` below the number of characters before the terminator, leaves
character `k` readable on a generator that is not exhausted; the resume after those completes
the generator and leaves the result slot and the cells as they were; the consumer loop hands
over exactly the characters before the terminator, in order, and stops in the state reached by
that last resume; and it needs one iteration, so one `++`, per character: with fewer it has not
finished. -/
theorem hello_yields_the_string (a : Addr) (p : List Char) (m : Machine Char) :
    hello a p m = hello_resumed a p m 1 ∧
    (∀ k, k < (before_terminator p).length →
      ∃ g1 m1, hello_resumed a p m (k + 1) = .ok (g1, m1) ∧
        generator_t.iterator.eq g1 g1.end_ = false ∧
        generator_t.iterator.deref g1 m1 = (before_terminator p)[k]?) ∧
    (∃ g0 m0 g1 m1,
      hello_resumed a p m (before_terminator p).length = .ok (g0, m0) ∧
      hello_resumed a p m ((before_terminator p).length + 1) = .ok (g1, m1) ∧
      generator_t.iterator.eq g1 g1.end_ = true ∧
      m1.generated_result = m0.generated_result ∧ m1.mem = m0.mem ∧
      ∀ fuel, (before_terminator p).length ≤ fuel →
        ∃ g m2, hello a p m = .ok (g, m2) ∧
          for_each hello_body char_marker fuel g m2 [] =
            .finished (before_terminator p) g1 m1) ∧
    (∀ fuel, fuel < (before_terminator p).length →
      ∃ g m2 g1 m1, hello a p m = .ok (g, m2) ∧
        for_each hello_body char_marker fuel g m2 [] =
          .out_of_fuel ((before_terminator p).take fuel) g1 m1) := by
  have hy : Yields hello_body char_marker (hello_t.ctor a p) (before_terminator p) :=
    hello_t_yields a p 0 (Or.inl rfl)
  refine ⟨(resume_n_one hello_body char_marker _ m).symm, ?_, ?_,
    fun fuel hf => for_each_init_short hello_body char_marker _ _ m fuel hy hf⟩
  · intro k hk
    obtain ⟨s1, m1, h1, _, _, h4⟩ := run_init_value hello_body char_marker _ _ m hy k hk
    exact ⟨suspended s1, m1, h1, eq_suspended s1 _, h4⟩
  · obtain ⟨g0, m0, s1, m1, h1, h2, h3, h4⟩ := run_init_last hello_body char_marker _ _ m hy
    refine ⟨g0, m0, exhausted s1, m1, h1, h2, eq_exhausted s1 _, h3, h4, ?_⟩
    intro fuel hf
    obtain ⟨g, m2, s2, m3, e1, e2, e3, _⟩ := run_init hello_body char_marker _ _ m fuel hy hf
    refine ⟨g, m2, e1, ?_⟩
    have h5 : resume_n hello_body char_marker ((before_terminator p).length + 1)
        (generator_t.init (hello_t.ctor a p), m) = .ok (exhausted s2, m3) := by
      rw [resume_n, e1]
      exact e2
    rw [h2] at h5
    simp only [Res.ok.injEq, Prod.mk.injEq] at h5
    rw [e3, h5.1, h5.2]

/-- Witness for C2: `hello("Hi")` on a fresh thread hands over `H` after the first resume and `i`
after the second, is exhausted after the third, and the consumer loop receives `H`, `i`. -/
theorem hello_yields_the_string_witness :
    (∃ g m, hello 0 ['H', 'i'] (Machine.fresh Char) = .ok (g, m) ∧
      hello_resumed 0 ['H', 'i'] (Machine.fresh Char) 1 = .ok (g, m) ∧
      generator_t.iterator.eq g g.end_ = false ∧ generator_t.iterator.deref g m = some 'H') ∧
    (∃ g m, hello_resumed 0 ['H', 'i'] (Machine.fresh Char) 2 = .ok (g, m) ∧
      generator_t.iterator.eq g g.end_ = false ∧ generator_t.iterator.deref g m = some 'i') ∧
    (∃ g0 m0 g1 m1, hello 0 ['H', 'i'] (Machine.fresh Char) = .ok (g0, m0) ∧
      hello_resumed 0 ['H', 'i'] (Machine.fresh Char) 3 = .ok (g1, m1) ∧
      generator_t.iterator.eq g1 g1.end_ = true ∧
      for_each hello_body char_marker 2 g0 m0 [] = .finished ['H', 'i'] g1 m1) := by
  obtain ⟨h1, h2, ⟨g0, m0, g1, m1, _, h4, h5, _, _, h6⟩, _⟩ :=
    hello_yields_the_string 0 ['H', 'i'] (Machine.fresh Char)
  have hlen : (before_terminator ['H', 'i']).length = 2 := by decide
  have hbt : before_terminator ['H', 'i'] = ['H', 'i'] := by decide
  rw [hlen] at h2 h4 h6
  rw [hbt] at h2 h6
  obtain ⟨ga, ma, ha1, ha2, ha3⟩ := h2 0 (by decide)
  obtain ⟨gb, mb, hb1, hb2, hb3⟩ := h2 1 (by decide)
  obtain ⟨g, m2, hc1, hc2⟩ := h6 2 (by decide)
  refine ⟨⟨ga, ma, h1.trans ha1, ha1, ha2, ha3⟩, ⟨gb, mb, hb1, hb2, hb3⟩,
    ⟨g, m2, g1, m1, hc1, h4, h5, hc2⟩⟩

/-- C3 (empty body): when the first step of the body, run by the constructor after the marker is
published, completes the body, `generator` returns a generator that is exhausted at once:
`begin() == end()` holds, and the consumer loop finishes without an iteration and without
touching the state, whatever the fuel. -/
theorem empty_body_exhausted {σ T : Type} (b : Body σ T) (mT : Marker) (body s1 : σ)
    (m m1 : Machine T)
    (hcall : b.call body { m with generated_type := some mT } = .ok (s1, m1))
    (hc : b.is_complete s1 = true) :
    ∃ g, generator b mT body m = .ok (g, m1) ∧
      generator_t.iterator.eq g g.end_ = true ∧
      ∀ fuel, for_each b mT fuel g m1 [] = .finished [] g m1 := by
  refine ⟨exhausted s1, ?_, eq_exhausted s1 _, fun fuel => ?_⟩
  · simp [generator, generator_t.ctor, generator_t.resumable_resume, resumable_t.resume,
      entry_point.call, generator_t.init, exhausted, hcall, entry_point.after_body, hc]
  · exact for_each_at_end b mT fuel _ _ _ (eq_exhausted s1 _)

/-- Witness for C3: the body of `hello("")` on a fresh thread. -/
theorem empty_body_exhausted_witness :
    hello_body.call (hello_t.ctor 0 [])
        { Machine.fresh Char with generated_type := some char_marker } =
      .ok ({ value_ := -1, p := [], yield := { value_ := 0 } },
        { Machine.fresh Char with generated_type := some char_marker }) ∧
    hello_body.is_complete { value_ := -1, p := [], yield := { value_ := 0 } } = true ∧
    ∃ g, generator hello_body char_marker (hello_t.ctor 0 []) (Machine.fresh Char) =
        .ok (g, { Machine.fresh Char with generated_type := some char_marker }) ∧
      generator_t.iterator.eq g g.end_ = true ∧
      ∀ fuel, for_each hello_body char_marker fuel g
          { Machine.fresh Char with generated_type := some char_marker } [] =
        .finished [] g { Machine.fresh Char with generated_type := some char_marker } :=
  ⟨rfl, rfl, empty_body_exhausted hello_body char_marker (hello_t.ctor 0 [])
    { value_ := -1, p := [], yield := { value_ := 0 } } (Machine.fresh Char)
    { Machine.fresh Char with generated_type := some char_marker } rfl rfl⟩

/-- C4 (eager first value): when the first step of the body yields `v`, `generator` returns
normally after exactly one `resume()`, the body having run that one step, and the token returned
by `begin()` on the new generator, with no `++` applied, is not at the end and dereferences to
`v`. -/
theorem first_value_is_eager {σ T : Type} (b : Body σ T) (mT : Marker) (body s1 : σ) (v : T)
    (m : Machine T) (h : YieldsStep b mT body v s1) :
    ∃ g m1, generator b mT body m = .ok (g, m1) ∧
      resume_n b mT 1 (generator_t.init body, m) = .ok (g, m1) ∧
      g.resumable_.body_.body_ = s1 ∧
      generator_t.iterator.eq g g.end_ = false ∧
      generator_t.iterator.deref g m1 = some v ∧
      ∀ (this : Addr) (gen : Addr → Option (generator_t σ)), gen this = some g →
        iterator.deref (generator_t.begin this { gen := gen, m := m1 }).1
          (generator_t.begin this { gen := gen, m := m1 }).2 = some v := by
  obtain ⟨m1, hr, _, hd⟩ := resume_init_yield b mT h m
  refine ⟨suspended s1, m1, hr, ?_, rfl, eq_suspended s1 _, hd, ?_⟩
  · rw [resume_n_one]
    exact hr
  · intro this gen hg
    simp [generator_t.begin, iterator.deref, hg, hd]

/-- Witness for C4: the body of `hello("Hi")`, whose first step yields `H`. -/
theorem first_value_is_eager_witness :
    YieldsStep hello_body char_marker (hello_t.ctor 0 ['H', 'i']) 'H'
      { value_ := hello_t.yield_label, p := ['i'], yield := { value_ := 0 } } ∧
    ∃ g m1, generator hello_body char_marker (hello_t.ctor 0 ['H', 'i']) (Machine.fresh Char) =
        .ok (g, m1) ∧
      resume_n hello_body char_marker 1
        (generator_t.init (hello_t.ctor 0 ['H', 'i']), Machine.fresh Char) = .ok (g, m1) ∧
      g.resumable_.body_.body_ =
        { value_ := hello_t.yield_label, p := ['i'], yield := { value_ := 0 } } ∧
      generator_t.iterator.eq g g.end_ = false ∧
      generator_t.iterator.deref g m1 = some 'H' ∧
      ∀ (this : Addr) (gen : Addr → Option (generator_t hello_t)), gen this = some g →
        iterator.deref (generator_t.begin this { gen := gen, m := m1 }).1
          (generator_t.begin this { gen := gen, m := m1 }).2 = some 'H' :=
  ⟨hello_t_yields_step 0 'H' ['i'] 0 (Or.inl rfl) (by decide),
    first_value_is_eager hello_body char_marker (hello_t.ctor 0 ['H', 'i']) _ 'H'
      (Machine.fresh Char) (hello_t_yields_step 0 'H' ['i'] 0 (Or.inl rfl) (by decide))⟩

/-- C5, counterexample: on a fresh thread `hello("")` returns an exhausted generator, and `++` on
its token returns normally instead of aborting. -/
theorem incr_after_completion_returns :
    (hello 0 [] (Machine.fresh Char)).isOk = true ∧
    generator_t.iterator.eq (hello 0 [] (Machine.fresh Char)).state.1 {} = true ∧
    (generator_t.iterator.incr hello_body char_marker
      (hello 0 [] (Machine.fresh Char)).state.1
      (hello 0 [] (Machine.fresh Char)).state.2).isOk = true := by
  decide

/-- C5, amended: `resume()` makes no check.  On an exhausted generator `resumable_.resume()`, and
so `++` on a token, returns normally and changes neither the generator nor the thread's storage:
the completed entry point is re-entered at `case -1` and no step of the user body runs. -/
theorem resume_after_completion_is_noop {σ T : Type} (b : Body σ T) (mT : Marker)
    (g : generator_t σ) (m : Machine T) (h : generator_t.iterator.eq g g.end_ = true) :
    resumable_t.resume (entry_point.call b mT) g.resumable_ (g.result_, m) =
      .ok (g.resumable_, (g.result_, m)) ∧
    generator_t.iterator.incr b mT g m = .ok (g, m) := by
  have h1 := resume_exhausted b mT g m h
  refine ⟨?_, h1⟩
  rw [eq_iff_value] at h
  obtain ⟨res, ⟨⟨⟨v⟩, s⟩⟩⟩ := g
  simp only at h
  subst h
  simp [resumable_t.resume, entry_point.call]

/-- Witness for C5, amended: the exhausted generator of `hello("")`. -/
theorem resume_after_completion_is_noop_witness :
    generator_t.iterator.eq
      (exhausted ({ value_ := -1, p := [], yield := { value_ := 0 } } : hello_t)) {} = true ∧
    (resumable_t.resume (entry_point.call hello_body char_marker)
        (exhausted ({ value_ := -1, p := [], yield := { value_ := 0 } } : hello_t)).resumable_
        (some ResultSlot.generated_result, Machine.fresh Char) =
      .ok ((exhausted ({ value_ := -1, p := [], yield := { value_ := 0 } } : hello_t)).resumable_,
        (some ResultSlot.generated_result, Machine.fresh Char)) ∧
    generator_t.iterator.incr hello_body char_marker
        (exhausted ({ value_ := -1, p := [], yield := { value_ := 0 } } : hello_t))
        (Machine.fresh Char) =
      .ok (exhausted ({ value_ := -1, p := [], yield := { value_ := 0 } } : hello_t),
        Machine.fresh Char)) :=
  ⟨rfl, resume_after_completion_is_noop hello_body char_marker
    (exhausted ({ value_ := -1, p := [], yield := { value_ := 0 } } : hello_t))
    (Machine.fresh Char) rfl⟩

theorem op_run_exhausted {σ T : Type} (b : Body σ T) (mT : Marker) (g : generator_t σ)
    (m : Machine T) (h : generator_t.iterator.eq g g.end_ = true) (op : Op) :
    Op.run b mT op (g, m) = .ok (g, m) ∨ Op.run b mT op (g, m) = .fatal (g, m) := by
  cases op with
  | begin => exact Or.inl rfl
  | compare_eq => exact Or.inl rfl
  | compare_ne => exact Or.inl rfl
  | deref =>
    simp only [Op.run]
    cases generator_t.iterator.deref g m with
    | none => exact Or.inr rfl
    | some v => exact Or.inl rfl
  | incr => exact Or.inl (resume_exhausted b mT g m h)

/-- C6 (exhaustion is terminal): once `it == end()` holds for a generator, every sequence of
`begin()`, comparisons, `*it` and `++it` on it leaves the generator and the thread's storage as
they are, so `it == end()` still holds after it. -/
theorem exhaustion_is_terminal {σ T : Type} (b : Body σ T) (mT : Marker) (g : generator_t σ)
    (m : Machine T) (ops : List Op) (h : generator_t.iterator.eq g g.end_ = true) :
    (run_ops b mT ops (g, m)).state = (g, m) ∧
    generator_t.iterator.eq (run_ops b mT ops (g, m)).state.1 {} = true := by
  have key : (run_ops b mT ops (g, m)).state = (g, m) := by
    induction ops with
    | nil => rfl
    | cons op ops ih =>
      rcases op_run_exhausted b mT g m h op with h1 | h1
      · rw [run_ops, h1]
        exact ih
      · rw [run_ops, h1]
        rfl
  exact ⟨key, by rw [key]; exact h⟩

/-- Witness for C6: the generator of `hello("Hi")` after its third resume, then two more `++`
among other operations. -/
theorem exhaustion_is_terminal_witness :
    generator_t.iterator.eq (hello_resumed 0 ['H', 'i'] (Machine.fresh Char) 3).state.1
      (hello_resumed 0 ['H', 'i'] (Machine.fresh Char) 3).state.1.end_ = true ∧
    (run_ops hello_body char_marker [Op.incr, Op.begin, Op.deref, Op.compare_ne, Op.incr]
        ((hello_resumed 0 ['H', 'i'] (Machine.fresh Char) 3).state.1,
          (hello_resumed 0 ['H', 'i'] (Machine.fresh Char) 3).state.2)).state =
      ((hello_resumed 0 ['H', 'i'] (Machine.fresh Char) 3).state.1,
        (hello_resumed 0 ['H', 'i'] (Machine.fresh Char) 3).state.2) ∧
    generator_t.iterator.eq
      (run_ops hello_body char_marker [Op.incr, Op.begin, Op.deref, Op.compare_ne, Op.incr]
        ((hello_resumed 0 ['H', 'i'] (Machine.fresh Char) 3).state.1,
          (hello_resumed 0 ['H', 'i'] (Machine.fresh Char) 3).state.2)).state.1 {} = true :=
  ⟨by decide, exhaustion_is_terminal hello_body char_marker _ _ _ (by decide)⟩

/-- C7 (the marker check of yield): `yield_t<T>::operator()(v)` returns normally exactly when
the thread's type marker is the marker of `T`; otherwise it aborts in the state it was called in,
with `value_` and the result slot not yet written. -/
theorem yield_checks_type_marker {T : Type} (mT : Marker) (y : yield_t) (v : T)
    (m : Machine T) :
    ((yield_t.call mT y v m).isOk = true ↔ m.generated_type = some mT) ∧
    (m.generated_type ≠ some mT → yield_t.call mT y v m = .fatal m) := by
  by_cases h : m.generated_type = some mT
  · simp [yield_t.call, h, Res.isOk]
  · simp [yield_t.call, h, Res.isOk]

/-- Witness for C7: a yield of `char` on a thread whose marker is the one of another type. -/
theorem yield_checks_type_marker_witness :
    ({ generated_result := none, generated_type := some 2, mem := fun _ => none } :
        Machine Char).generated_type ≠ some char_marker ∧
    yield_t.call char_marker { value_ := 0 } 'H'
        { generated_result := none, generated_type := some 2, mem := fun _ => none } =
      .fatal { generated_result := none, generated_type := some 2, mem := fun _ => none } :=
  ⟨by decide, (yield_checks_type_marker char_marker { value_ := 0 } 'H'
    { generated_result := none, generated_type := some 2, mem := fun _ => none }).2 (by decide)⟩

/-- C8, counterexample: after its third resume the generator of `hello("Hi")` is exhausted, and
dereferencing its token returns `i`, the value the second resume had left there. -/
theorem deref_exhausted_returns_stale :
    (hello_resumed 0 ['H', 'i'] (Machine.fresh Char) 3).isOk = true ∧
    generator_t.iterator.eq (hello_resumed 0 ['H', 'i'] (Machine.fresh Char) 3).state.1 {} =
      true ∧
    generator_t.iterator.deref (hello_resumed 0 ['H', 'i'] (Machine.fresh Char) 2).state.1
      (hello_resumed 0 ['H', 'i'] (Machine.fresh Char) 2).state.2 = some 'i' ∧
    generator_t.iterator.deref (hello_resumed 0 ['H', 'i'] (Machine.fresh Char) 3).state.1
      (hello_resumed 0 ['H', 'i'] (Machine.fresh Char) 3).state.2 = some 'i' := by
  decide

/-- C8, amended: `operator*` makes no check.  On the generator exhausted by a body that yielded
`vs` and then completed without yielding, it reads through the result slot as on a live
generator: it returns the last value of `vs`, stale, when there is one, and otherwise whatever
the result slot led to before the generator was built (nothing, on a thread whose slot is
null). -/
theorem deref_exhausted_reads_result_slot {σ T : Type} (b : Body σ T) (mT : Marker) (body : σ)
    (vs : List T) (m : Machine T) (hy : Yields b mT body vs) :
    ∃ g m1, resume_n b mT (vs.length + 1) (generator_t.init body, m) = .ok (g, m1) ∧
      generator_t.iterator.eq g g.end_ = true ∧
      generator_t.iterator.deref g m1 =
        (match vs.getLast? with
         | some v => some v
         | none => m.generated_result.bind m.mem) := by
  obtain ⟨g0, m0, s1, m1, h0, h1, _, h3⟩ := run_init b mT vs body m vs.length hy (le_refl _)
  refine ⟨exhausted s1, m1, ?_, eq_exhausted s1 _, ?_⟩
  · rw [resume_n, h0]
    exact h1
  · rw [h3]
    cases vs.getLast? with
    | some v => rfl
    | none =>
      simp only [generator_t.iterator.deref, exhausted]
      cases m.generated_result <;> rfl

/-- Witness for C8, amended: the body of `hello("Hi")` on a fresh thread. -/
theorem deref_exhausted_reads_result_slot_witness :
    Yields hello_body char_marker (hello_t.ctor 0 ['H', 'i']) ['H', 'i'] ∧
    ∃ g m1, resume_n hello_body char_marker (['H', 'i'].length + 1)
        (generator_t.init (hello_t.ctor 0 ['H', 'i']), Machine.fresh Char) = .ok (g, m1) ∧
      generator_t.iterator.eq g g.end_ = true ∧
      generator_t.iterator.deref g m1 =
        (match ['H', 'i'].getLast? with
         | some v => some v
         | none => (Machine.fresh Char).generated_result.bind (Machine.fresh Char).mem) :=
  ⟨hello_Hi_yields 0, deref_exhausted_reads_result_slot hello_body char_marker
    (hello_t.ctor 0 ['H', 'i']) ['H', 'i'] (Machine.fresh Char) (hello_Hi_yields 0)⟩

/-- C9 (one cursor): `begin()` leaves the generator and the thread as they are, and two tokens
obtained from `begin()` on the generator at `this` refer to that one generator: after `++` on the
first, the generator at `this` is the resumed one, and `*` and the comparisons with `end()`
through the second token give what they give through the first, namely the value and the
exhaustion state of the resumed generator. -/
theorem tokens_share_one_cursor {σ T : Type} (b : Body σ T) (mT : Marker) (this : Addr)
    (w w1 w2 w3 : Objects σ T) (g : generator_t σ) (it1 it2 : iterator) (e : end_t)
    (hg : w.gen this = some g)
    (h1 : generator_t.begin this w = (it1, w1))
    (h2 : generator_t.begin this w1 = (it2, w2))
    (h3 : (iterator.incr b mT it1 w2).state = w3) :
    w1 = w ∧ w2 = w ∧
    w3.gen this = some (generator_t.iterator.incr b mT g w.m).state.1 ∧
    w3.m = (generator_t.iterator.incr b mT g w.m).state.2 ∧
    iterator.deref it2 w3 = iterator.deref it1 w3 ∧
    iterator.deref it2 w3 =
      generator_t.iterator.deref (generator_t.iterator.incr b mT g w.m).state.1
        (generator_t.iterator.incr b mT g w.m).state.2 ∧
    iterator.eq it2 e w3 = iterator.eq it1 e w3 ∧
    iterator.eq it2 e w3 =
      some (generator_t.iterator.eq (generator_t.iterator.incr b mT g w.m).state.1 e) ∧
    iterator.ne it2 e w3 = iterator.ne it1 e w3 ∧
    iterator.ne it2 e w3 =
      some (generator_t.iterator.ne (generator_t.iterator.incr b mT g w.m).state.1 e) := by
  simp only [generator_t.begin, Prod.mk.injEq] at h1
  obtain ⟨rfl, rfl⟩ := h1
  simp only [generator_t.begin, Prod.mk.injEq] at h2
  obtain ⟨rfl, rfl⟩ := h2
  subst h3
  have hw : ∀ r : Res (generator_t σ × Machine T),
      generator_t.iterator.incr b mT g w.m = r →
      ((iterator.incr b mT { self_ := this } w).state.gen this = some r.state.1 ∧
        (iterator.incr b mT { self_ := this } w).state.m = r.state.2) := by
    intro r hr
    cases r with
    | ok st => simp [iterator.incr, hg, hr, Res.state]
    | fatal st => simp [iterator.incr, hg, hr, Res.state]
  obtain ⟨hgen, hm⟩ := hw _ rfl
  refine ⟨rfl, rfl, hgen, hm, rfl, ?_, rfl, ?_, rfl, ?_⟩
  · simp only [iterator.deref, hgen, hm]
  · simp only [iterator.eq, hgen]
  · simp only [iterator.ne, hgen]

/-- Witness for C9: two tokens of the generator of `hello("Hi")`.  Before any `++` a token reads
`H`; after `++` on the first token the second one reads `i`. -/
theorem tokens_share_one_cursor_witness :
    sample_objects.gen 5 = some (hello 5 ['H', 'i'] (Machine.fresh Char)).state.1 ∧
    generator_t.begin 5 sample_objects = ({ self_ := 5 }, sample_objects) ∧
    iterator.deref { self_ := 5 } sample_objects = some 'H' ∧
    iterator.deref { self_ := 5 }
      (iterator.incr hello_body char_marker { self_ := 5 } sample_objects).state = some 'i' ∧
    iterator.eq { self_ := 5 } {}
      (iterator.incr hello_body char_marker { self_ := 5 } sample_objects).state = some false ∧
    iterator.deref { self_ := 5 }
        (iterator.incr hello_body char_marker { self_ := 5 } sample_objects).state =
      generator_t.iterator.deref
        (generator_t.iterator.incr hello_body char_marker
          (hello 5 ['H', 'i'] (Machine.fresh Char)).state.1 sample_objects.m).state.1
        (generator_t.iterator.incr hello_body char_marker
          (hello 5 ['H', 'i'] (Machine.fresh Char)).state.1 sample_objects.m).state.2 :=
  ⟨rfl, rfl, by decide, by decide, by decide,
    (tokens_share_one_cursor hello_body char_marker 5 sample_objects sample_objects
      sample_objects (iterator.incr hello_body char_marker { self_ := 5 } sample_objects).state
      (hello 5 ['H', 'i'] (Machine.fresh Char)).state.1 { self_ := 5 } { self_ := 5 } {}
      rfl rfl rfl rfl).2.2.2.2.2.1⟩

/-- C10 (`ready()`): `resumable_t::ready()` is `is_complete()` of the wrapped body, for a
generator the entry point, whose `is_complete()` is `value_ == -1`; `it == end()` is `ready()`
and `it != end()` its negation; and the comparisons leave the generator and the thread as they
are. -/
theorem ready_is_body_complete {σ T β : Type} (is_complete : β → Bool) (r : resumable_t β)
    (b : Body σ T) (mT : Marker) (g : generator_t σ) (m : Machine T) (e : end_t) :
    resumable_t.ready is_complete r = is_complete r.body_ ∧
    resumable_t.ready entry_point.is_complete g.resumable_ =
      g.resumable_.body_.tocoroutine.is_complete ∧
    (resumable_t.ready entry_point.is_complete g.resumable_ = true ↔
      g.resumable_.body_.value_ = -1) ∧
    generator_t.iterator.eq g e = resumable_t.ready entry_point.is_complete g.resumable_ ∧
    generator_t.iterator.ne g e = !resumable_t.ready entry_point.is_complete g.resumable_ ∧
    Op.run b mT Op.compare_eq (g, m) = .ok (g, m) ∧
    Op.run b mT Op.compare_ne (g, m) = .ok (g, m) := by
  refine ⟨rfl, rfl, ?_, rfl, rfl, rfl, rfl⟩
  simp [resumable_t.ready, entry_point.is_complete, coroutine.is_complete]

/-! ## The entry point and the user body, step by step -/

section Lockstep

variable {σ T : Type}

theorem resume_init_call (b : Body σ T) (mT : Marker) (s : σ) (m : Machine T) :
    generator_t.resumable_resume b mT (generator_t.init s) m =
      (match b.call s { m with generated_type := some mT } with
       | .ok (s1, m1) => .ok (if b.is_complete s1 then exhausted s1 else suspended s1, m1)
       | .fatal (s1, m1) =>
         .fatal ({ result_ := some ResultSlot.generated_result,
                   resumable_ := { body_ := { value_ := 0, body_ := s1 } } }, m1)) := by
  cases hc : b.call s { m with generated_type := some mT } with
  | ok st =>
    obtain ⟨s1, m1⟩ := st
    by_cases hs : b.is_complete s1 = true
    · simp [generator_t.resumable_resume, resumable_t.resume, entry_point.call,
        generator_t.init, hc, entry_point.after_body, hs, exhausted]
    · simp [generator_t.resumable_resume, resumable_t.resume, entry_point.call,
        generator_t.init, hc, entry_point.after_body, hs, suspended]
  | fatal st =>
    obtain ⟨s1, m1⟩ := st
    simp [generator_t.resumable_resume, resumable_t.resume, entry_point.call,
      generator_t.init, hc]

theorem resume_suspended_call (b : Body σ T) (mT : Marker) (s : σ) (m : Machine T) :
    generator_t.resumable_resume b mT (suspended s) m =
      (match b.call s m with
       | .ok (s1, m1) => .ok (if b.is_complete s1 then exhausted s1 else suspended s1, m1)
       | .fatal (s1, m1) => .fatal (suspended s1, m1)) := by
  cases hc : b.call s m with
  | ok st =>
    obtain ⟨s1, m1⟩ := st
    by_cases hs : b.is_complete s1 = true
    · simp [generator_t.resumable_resume, resumable_t.resume, entry_point.call,
        suspended, entry_point.yield_label, hc, entry_point.after_body, hs, exhausted]
    · simp [generator_t.resumable_resume, resumable_t.resume, entry_point.call,
        suspended, entry_point.yield_label, hc, entry_point.after_body, hs]
  | fatal st =>
    obtain ⟨s1, m1⟩ := st
    simp [generator_t.resumable_resume, resumable_t.resume, entry_point.call,
      suspended, entry_point.yield_label, hc]

theorem resume_n_succ_ok (b : Body σ T) (mT : Marker) :
    ∀ (k : Nat) (st st2 : generator_t σ × Machine T),
      resume_n b mT (k + 1) st = .ok st2 →
      ∃ st1, resume_n b mT k st = .ok st1 ∧
        generator_t.resumable_resume b mT st1.1 st1.2 = .ok st2 := by
  intro k
  induction k with
  | zero =>
    intro st st2 h
    rw [resume_n_one] at h
    exact ⟨st, rfl, h⟩
  | succ k ih =>
    intro st st2 h
    rw [resume_n] at h
    cases hr : generator_t.resumable_resume b mT st.1 st.2 with
    | ok st0 =>
      rw [hr] at h
      obtain ⟨st1, h1, h2⟩ := ih st0 st2 h
      refine ⟨st1, ?_, h2⟩
      rw [resume_n, hr]
      exact h1
    | fatal st0 =>
      rw [hr] at h
      cases h

theorem after_step_facts (b : Body σ T) (s1 : σ) :
    (if b.is_complete s1 = true then exhausted s1 else suspended s1).resumable_.body_.body_ = s1 ∧
    (if b.is_complete s1 = true then exhausted s1 else suspended s1).result_ =
      some ResultSlot.generated_result ∧
    generator_t.iterator.eq (if b.is_complete s1 = true then exhausted s1 else suspended s1) {} =
      b.is_complete s1 := by
  by_cases hs : b.is_complete s1 = true
  · rw [if_pos hs, hs]
    exact ⟨rfl, rfl, eq_exhausted s1 _⟩
  · have hs1 : b.is_complete s1 = false := by simpa using hs
    rw [if_neg hs, hs1]
    exact ⟨rfl, rfl, eq_suspended s1 _⟩

/-- The generators reached from `generator_t.init` by resumes that all returned and left the
generator live: the new generator itself, or the one suspended over the body state that as many
body steps reach from the published marker. -/
theorem lockstep_inv (b : Body σ T) (mT : Marker) (s : σ) (m : Machine T) :
    ∀ (k : Nat) (g0 : generator_t σ) (m0 : Machine T),
      resume_n b mT k (generator_t.init s, m) = .ok (g0, m0) →
      generator_t.iterator.eq g0 g0.end_ = false →
      (k = 0 ∧ g0 = generator_t.init s ∧ m0 = m) ∨
      (0 < k ∧ ∃ s0, g0 = suspended s0 ∧
        body_n b k (s, { m with generated_type := some mT }) = .ok (s0, m0)) := by
  intro k
  induction k with
  | zero =>
    intro g0 m0 h _
    simp only [resume_n, Res.ok.injEq, Prod.mk.injEq] at h
    exact Or.inl ⟨rfl, h.1.symm, h.2.symm⟩
  | succ k ih =>
    intro g0 m0 h hne
    obtain ⟨⟨g1, m1⟩, h1, h2⟩ := resume_n_succ_ok b mT k _ _ h
    simp only at h2
    have hne1 : generator_t.iterator.eq g1 g1.end_ = false := by
      cases he : generator_t.iterator.eq g1 g1.end_ with
      | false => rfl
      | true =>
        rw [resume_exhausted b mT g1 m1 he] at h2
        simp only [Res.ok.injEq, Prod.mk.injEq] at h2
        rw [← h2.1] at hne
        rw [he] at hne
        cases hne
    refine Or.inr ⟨Nat.succ_pos k, ?_⟩
    rcases ih g1 m1 h1 hne1 with ⟨hk, hg, hm⟩ | ⟨_, s0, hg, hb⟩
    · rw [hg, hm, resume_init_call] at h2
      cases hc : b.call s { m with generated_type := some mT } with
      | ok st =>
        obtain ⟨s1, m2⟩ := st
        rw [hc] at h2
        simp only [Res.ok.injEq, Prod.mk.injEq] at h2
        obtain ⟨h3, h4⟩ := h2
        subst h4
        have hf := (after_step_facts b s1).2.2
        rw [h3] at hf
        have hs1 : b.is_complete s1 = false := by
          rw [← hf]
          exact hne
        refine ⟨s1, ?_, ?_⟩
        · rw [← h3]
          simp [hs1]
        · subst hk
          simp [body_n, hc]
      | fatal st =>
        rw [hc] at h2
        cases h2
    · subst hg
      rw [resume_suspended_call] at h2
      cases hc : b.call s0 m1 with
      | ok st =>
        obtain ⟨s1, m2⟩ := st
        rw [hc] at h2
        simp only [Res.ok.injEq, Prod.mk.injEq] at h2
        obtain ⟨h3, h4⟩ := h2
        subst h4
        have hf := (after_step_facts b s1).2.2
        rw [h3] at hf
        have hs1 : b.is_complete s1 = false := by
          rw [← hf]
          exact hne
        refine ⟨s1, ?_, ?_⟩
        · rw [← h3]
          simp [hs1]
        · rw [body_n, hb]
          exact hc
      | fatal st =>
        rw [hc] at h2
        cases h2

theorem run_yields_marker (mT : Marker) :
    ∀ (ys : List (yield_t × T)) (m : Machine T), m.generated_type = some mT →
      ∃ m1, run_yields mT ys m = .ok m1 ∧ m1.generated_type = some mT := by
  intro ys
  induction ys with
  | nil => exact fun m hm => ⟨m, rfl, hm⟩
  | cons yv ys ih =>
    intro m hm
    obtain ⟨y, v⟩ := yv
    obtain ⟨m1, h1, h2⟩ := ih ⟨some y.value_, some mT, store m.mem y.value_ v⟩ rfl
    refine ⟨m1, ?_, h2⟩
    rw [run_yields, yield_call_ok mT y v m hm]
    exact h1

theorem yields_only_call (b : Body σ T) (mT : Marker) (h : YieldsOnlyThrough b mT) (s : σ)
    (m : Machine T) (hm : m.generated_type = some mT) :
    ∃ s1 m1, b.call s m = .ok (s1, m1) ∧ m1.generated_type = some mT := by
  obtain ⟨ys, s1, hs⟩ := h s
  obtain ⟨m1, h1, h2⟩ := run_yields_marker mT ys m hm
  exact ⟨s1, m1, (hs m).1 m1 h1, h2⟩

theorem body_n_marker (b : Body σ T) (mT : Marker) (h : YieldsOnlyThrough b mT) (s : σ)
    (m : Machine T) (hm : m.generated_type = some mT) :
    ∀ k, ∃ s1 m1, body_n b k (s, m) = .ok (s1, m1) ∧ m1.generated_type = some mT := by
  intro k
  induction k with
  | zero => exact ⟨s, m, rfl, hm⟩
  | succ k ih =>
    obtain ⟨s1, m1, h1, h2⟩ := ih
    obtain ⟨s2, m2, h3, h4⟩ := yields_only_call b mT h s1 m1 h2
    exact ⟨s2, m2, by rw [body_n, h1]; exact h3, h4⟩

theorem resume_marker (b : Body σ T) (mT : Marker) (h : YieldsOnlyThrough b mT)
    (g : generator_t σ) (m : Machine T) (hm : m.generated_type = some mT)
    (hg : ∃ s, g = suspended s ∨ g = exhausted s) :
    ∃ g1 m1, generator_t.resumable_resume b mT g m = .ok (g1, m1) ∧
      m1.generated_type = some mT ∧ ∃ s1, g1 = suspended s1 ∨ g1 = exhausted s1 := by
  obtain ⟨s, rfl | rfl⟩ := hg
  · obtain ⟨s1, m1, h1, h2⟩ := yields_only_call b mT h s m hm
    refine ⟨_, m1, by rw [resume_suspended_call, h1], h2, s1, ?_⟩
    by_cases hs : b.is_complete s1 = true
    · exact Or.inr (if_pos hs)
    · exact Or.inl (if_neg hs)
  · exact ⟨exhausted s, m, resume_exhausted b mT _ m (eq_exhausted s _), hm, s, Or.inr rfl⟩

theorem resume_init_marker (b : Body σ T) (mT : Marker) (h : YieldsOnlyThrough b mT) (s : σ)
    (m : Machine T) :
    ∃ g1 m1, generator_t.resumable_resume b mT (generator_t.init s) m = .ok (g1, m1) ∧
      m1.generated_type = some mT ∧ ∃ s1, g1 = suspended s1 ∨ g1 = exhausted s1 := by
  obtain ⟨s1, m1, h1, h2⟩ :=
    yields_only_call b mT h s { m with generated_type := some mT } rfl
  refine ⟨_, m1, by rw [resume_init_call, h1], h2, s1, ?_⟩
  by_cases hs : b.is_complete s1 = true
  · exact Or.inr (if_pos hs)
  · exact Or.inl (if_neg hs)

theorem resume_n_marker (b : Body σ T) (mT : Marker) (h : YieldsOnlyThrough b mT) :
    ∀ (k : Nat) (g : generator_t σ) (m : Machine T), m.generated_type = some mT →
      (∃ s, g = suspended s ∨ g = exhausted s) →
      ∃ g1 m1, resume_n b mT k (g, m) = .ok (g1, m1) ∧
        m1.generated_type = some mT ∧ ∃ s1, g1 = suspended s1 ∨ g1 = exhausted s1 := by
  intro k
  induction k with
  | zero => exact fun g m hm hg => ⟨g, m, rfl, hm, hg⟩
  | succ k ih =>
    intro g m hm hg
    obtain ⟨g1, m1, h1, h2, h3⟩ := resume_marker b mT h g m hm hg
    obtain ⟨g2, m2, h4, h5, h6⟩ := ih g1 m1 h2 h3
    exact ⟨g2, m2, by rw [resume_n, h1]; exact h4, h5, h6⟩

theorem resume_n_init_marker (b : Body σ T) (mT : Marker) (h : YieldsOnlyThrough b mT) (s : σ)
    (m : Machine T) (k : Nat) :
    ∃ g1 m1, resume_n b mT (k + 1) (generator_t.init s, m) = .ok (g1, m1) ∧
      m1.generated_type = some mT := by
  obtain ⟨g0, m0, h1, h2, h3⟩ := resume_init_marker b mT h s m
  obtain ⟨g1, m1, h4, h5, _⟩ := resume_n_marker b mT h k g0 m0 h2 h3
  exact ⟨g1, m1, by rw [resume_n, h1]; exact h4, h5⟩

theorem for_each_marker (b : Body σ T) (mT : Marker) (h : YieldsOnlyThrough b mT) :
    ∀ (fuel : Nat) (g : generator_t σ) (m : Machine T) (out : List T),
      m.generated_type = some mT → (∃ s, g = suspended s ∨ g = exhausted s) →
      ∀ out1 g1 m1, for_each b mT fuel g m out ≠ .aborted out1 g1 m1 := by
  intro fuel
  induction fuel with
  | zero =>
    intro g m out _ _ out1 g1 m1
    rw [for_each]
    split <;> simp
  | succ fuel ih =>
    intro g m out hm hg out1 g1 m1
    obtain ⟨g2, m2, h1, h2, h3⟩ := resume_marker b mT h g m hm hg
    rw [for_each]
    split
    · cases generator_t.iterator.deref g m with
      | none => simp
      | some c =>
        simp only [generator_t.iterator.incr, h1]
        exact ih g2 m2 _ h2 h3 out1 g1 m1
    · simp

theorem resume_n_silent (b : Body σ T) (mT : Marker) (m : Machine T) :
    ∀ (i : Nat) (s : σ), YieldsNext b mT s i →
      ∃ s1, resume_n b mT i (suspended s, m) = .ok (suspended s1, m) ∧
        StartsWithYield b mT s1 := by
  intro i
  induction i with
  | zero =>
    intro s h
    cases h with
    | now hs => exact ⟨s, rfl, hs⟩
  | succ i ih =>
    intro s h
    cases h with
    | @later _ s1 _ hstep hrest =>
      obtain ⟨s2, h1, h2⟩ := ih s1 hrest
      refine ⟨s2, ?_, h2⟩
      have hr : generator_t.resumable_resume b mT (suspended s) m = .ok (suspended s1, m) := by
        rw [resume_suspended_call, hstep.2 m]
        simp [hstep.1]
      rw [resume_n, hr]
      exact h1

end Lockstep

/-! ## Bodies that reach the storage only through yield -/

theorem run_yields_single {T : Type} (mT : Marker) (y : yield_t) (v : T) (m : Machine T) :
    run_yields mT [(y, v)] m = yield_t.call mT y v m := by
  rw [run_yields]
  cases yield_t.call mT y v m <;> rfl

theorem hello_yields_only : YieldsOnlyThrough hello_body char_marker := by
  intro s
  obtain ⟨⟨v⟩, p, y⟩ := s
  by_cases hrun : (v = 0 ∨ v = hello_t.yield_label) ∧ p.headD NUL ≠ NUL
  · obtain ⟨hv, hp⟩ := hrun
    have hv1 : v ≠ -1 := by
      rcases hv with rfl | rfl <;> decide
    refine ⟨[(y, p.headD NUL)], { value_ := hello_t.yield_label, p := p.tail, yield := y },
      fun m => ?_⟩
    rw [run_yields_single]
    have hcall : hello_body.call { value_ := v, p := p, yield := y } m =
        (match yield_t.call char_marker y (p.headD NUL) m with
         | .ok m1 => .ok ({ value_ := hello_t.yield_label, p := p.tail, yield := y }, m1)
         | .fatal m1 =>
           .fatal ({ value_ := hello_t.yield_label, p := p.tail, yield := y }, m1)) := by
      simp only [hello_body, hello_t.call, hello_t.loop, if_neg hv1, if_pos hp]
      rcases hv with rfl | rfl
      · rfl
      · rfl
    rw [hcall]
    exact ⟨fun m1 h => by rw [h], fun m1 h => ⟨_, by rw [h]⟩⟩
  · refine ⟨[], { value_ := -1, p := p, yield := y },
      fun m => ⟨fun m1 h => ?_, fun m1 h => by simp [run_yields] at h⟩⟩
    simp only [run_yields, Res.ok.injEq] at h
    subst h
    simp only [hello_body, hello_t.call, hello_t.loop]
    by_cases h1 : v = -1
    · simp [h1]
    · by_cases h0 : v = 0
      · have hp : ¬ p.headD NUL ≠ NUL := fun hp => hrun ⟨Or.inl h0, hp⟩
        simp only [if_neg h1, if_pos h0, if_neg hp]
      · by_cases h2 : v = hello_t.yield_label
        · have hp : ¬ p.headD NUL ≠ NUL := fun hp => hrun ⟨Or.inr h2, hp⟩
          simp only [if_neg h1, if_neg h0, if_pos h2, if_neg hp]
        · simp only [if_neg h1, if_neg h0, if_neg h2]

theorem hello_starts_with_yield (a : Addr) (c : Char) (cs : List Char) (v : Int)
    (hv : v = 0 ∨ v = hello_t.yield_label) (hc : c ≠ NUL) :
    StartsWithYield hello_body char_marker
      { value_ := v, p := c :: cs, yield := { value_ := a } } := by
  refine ⟨{ value_ := a }, c, fun m m1 hy =>
    ⟨{ value_ := hello_t.yield_label, p := cs, yield := { value_ := a } }, ?_⟩⟩
  rcases hv with rfl | rfl <;>
    simp [hello_body, hello_t.call, hello_t.loop, hc, hello_t.yield_label, hy]

theorem idle_yields_only {T : Type} (mT : Marker) :
    YieldsOnlyThrough (idle_body : Body coroutine T) mT := by
  intro s
  refine ⟨[], { value_ := -1 }, fun m =>
    ⟨fun m1 h => ?_, fun m1 h => by simp [run_yields] at h⟩⟩
  simp only [run_yields, Res.ok.injEq] at h
  subst h
  rfl

/-! ## Properties of the entry point and of the yield channel -/

/-- C11 (lockstep): when `k` resumes of a new generator have returned and left it live, resume
number `k + 1` runs body step number `k + 1`, the first body step starting from the thread's
storage with the marker of `T` published.  If that step returns, the resume returns with the
same storage, the body in the state its `k + 1` steps reach, the result-slot reference
published, and `ready()` equal to the body's `is_complete()`; if that step aborts, the resume
aborts there. -/
theorem entry_point_lockstep {σ T : Type} (b : Body σ T) (mT : Marker) (s : σ) (m : Machine T)
    (k : Nat) (g0 : generator_t σ) (m0 : Machine T)
    (hprev : resume_n b mT k (generator_t.init s, m) = .ok (g0, m0))
    (hne : generator_t.iterator.eq g0 g0.end_ = false) :
    (∃ g1 s1 m1,
      resume_n b mT (k + 1) (generator_t.init s, m) = .ok (g1, m1) ∧
      body_n b (k + 1) (s, { m with generated_type := some mT }) = .ok (s1, m1) ∧
      g1.resumable_.body_.body_ = s1 ∧
      g1.result_ = some ResultSlot.generated_result ∧
      resumable_t.ready entry_point.is_complete g1.resumable_ = b.is_complete s1) ∨
    (∃ g1 s1 m1,
      resume_n b mT (k + 1) (generator_t.init s, m) = .fatal (g1, m1) ∧
      body_n b (k + 1) (s, { m with generated_type := some mT }) = .fatal (s1, m1) ∧
      g1.resumable_.body_.body_ = s1 ∧
      g1.result_ = some ResultSlot.generated_result) := by
  have hnext := resume_n_succ_right b mT k _ _ hprev
  simp only at hnext
  obtain ⟨s0, m2, hb, hr⟩ : ∃ (s0 : σ) (m2 : Machine T),
      body_n b (k + 1) (s, { m with generated_type := some mT }) = b.call s0 m2 ∧
      generator_t.resumable_resume b mT g0 m0 =
        (match b.call s0 m2 with
         | .ok (s1, m1) => .ok (if b.is_complete s1 then exhausted s1 else suspended s1, m1)
         | .fatal (s1, m1) =>
           .fatal ({ result_ := some ResultSlot.generated_result,
                     resumable_ := { body_ := { value_ := g0.resumable_.body_.value_,
                                                body_ := s1 } } }, m1)) := by
    rcases lockstep_inv b mT s m k g0 m0 hprev hne with ⟨hk, hg, hm⟩ | ⟨_, s0, hg, hb⟩
    · subst hk
      refine ⟨s, { m with generated_type := some mT }, by simp [body_n], ?_⟩
      rw [hg, hm, resume_init_call]
      rfl
    · refine ⟨s0, m0, by rw [body_n, hb], ?_⟩
      rw [hg, resume_suspended_call]
      rfl
  rw [hnext, hr, hb]
  cases hc : b.call s0 m2 with
  | ok st =>
    obtain ⟨s1, m1⟩ := st
    exact Or.inl ⟨_, s1, m1, rfl, rfl, (after_step_facts b s1).1, (after_step_facts b s1).2.1,
      (after_step_facts b s1).2.2⟩
  | fatal st =>
    obtain ⟨s1, m1⟩ := st
    exact Or.inr ⟨_, s1, m1, rfl, rfl, rfl, rfl⟩

/-- Witness for C11: the second resume of the generator of `hello("Hi")`. -/
theorem entry_point_lockstep_witness :
    resume_n hello_body char_marker 1
        (generator_t.init (hello_t.ctor 0 ['H', 'i']), Machine.fresh Char) =
      .ok ((hello_resumed 0 ['H', 'i'] (Machine.fresh Char) 1).state.1,
        (hello_resumed 0 ['H', 'i'] (Machine.fresh Char) 1).state.2) ∧
    generator_t.iterator.eq (hello_resumed 0 ['H', 'i'] (Machine.fresh Char) 1).state.1 {} =
      false ∧
    ((∃ g1 s1 m1,
      resume_n hello_body char_marker (1 + 1)
        (generator_t.init (hello_t.ctor 0 ['H', 'i']), Machine.fresh Char) = .ok (g1, m1) ∧
      body_n hello_body (1 + 1) (hello_t.ctor 0 ['H', 'i'],
        { Machine.fresh Char with generated_type := some char_marker }) = .ok (s1, m1) ∧
      g1.resumable_.body_.body_ = s1 ∧
      g1.result_ = some ResultSlot.generated_result ∧
      resumable_t.ready entry_point.is_complete g1.resumable_ = hello_body.is_complete s1) ∨
    (∃ g1 s1 m1,
      resume_n hello_body char_marker (1 + 1)
        (generator_t.init (hello_t.ctor 0 ['H', 'i']), Machine.fresh Char) = .fatal (g1, m1) ∧
      body_n hello_body (1 + 1) (hello_t.ctor 0 ['H', 'i'],
        { Machine.fresh Char with generated_type := some char_marker }) = .fatal (s1, m1) ∧
      g1.resumable_.body_.body_ = s1 ∧
      g1.result_ = some ResultSlot.generated_result)) :=
  ⟨rfl, by decide, entry_point_lockstep hello_body char_marker (hello_t.ctor 0 ['H', 'i'])
    (Machine.fresh Char) 1 _ _ rfl (by decide)⟩

/-- C12 (yield publishes its value): after a call `y(v)` of `yield_t<T>::operator()` that
returned, the result slot holds the address of `y.value_` and that cell holds `v`; so every
token whose generator has its result-slot reference published dereferences to `v`, in
particular the token of the generator whose resume ran the body step that made the call, whether
that resume was a `++` or the one of the constructor. -/
theorem yield_publishes_value {σ T : Type} (b : Body σ T) (mT : Marker) (y : yield_t) (v : T)
    (s s1 : σ) (m m1 : Machine T) (hy : yield_t.call mT y v m = .ok m1)
    (hb : b.call s m = .ok (s1, m1)) :
    m1.generated_result = some y.value_ ∧ m1.mem y.value_ = some v ∧
    (∀ g : generator_t σ, g.result_ = some ResultSlot.generated_result →
      generator_t.iterator.deref g m1 = some v) ∧
    (∃ g1, generator_t.iterator.incr b mT (suspended s) m = .ok (g1, m1) ∧
      g1.resumable_.body_.body_ = s1 ∧ generator_t.iterator.deref g1 m1 = some v) ∧
    (∀ m0 : Machine T, { m0 with generated_type := some mT } = m →
      ∃ g1, generator b mT s m0 = .ok (g1, m1) ∧
        g1.resumable_.body_.body_ = s1 ∧ generator_t.iterator.deref g1 m1 = some v) := by
  have hm : m.generated_type = some mT := by
    by_contra hcon
    simp [yield_t.call, hcon] at hy
  rw [yield_call_ok mT y v m hm] at hy
  simp only [Res.ok.injEq] at hy
  have hd : ∀ g : generator_t σ, g.result_ = some ResultSlot.generated_result →
      generator_t.iterator.deref g m1 = some v := by
    intro g hg
    rw [← hy]
    simp [generator_t.iterator.deref, hg, store]
  refine ⟨by rw [← hy], by rw [← hy]; simp [store], hd, ?_, ?_⟩
  · refine ⟨_, ?_, (after_step_facts b s1).1, hd _ (after_step_facts b s1).2.1⟩
    rw [generator_t.iterator.incr, resume_suspended_call, hb]
  · intro m0 hm0
    refine ⟨_, ?_, (after_step_facts b s1).1, hd _ (after_step_facts b s1).2.1⟩
    rw [generator, generator_t.ctor, resume_init_call, hm0, hb]

/-- Witness for C12: the first step of the body of `hello("Hi")`, which calls `yield('H')`. -/
theorem yield_publishes_value_witness :
    yield_t.call char_marker { value_ := 0 } 'H'
        { Machine.fresh Char with generated_type := some char_marker } =
      .ok { generated_result := some 0, generated_type := some char_marker,
            mem := store (Machine.fresh Char).mem 0 'H' } ∧
    hello_body.call (hello_t.ctor 0 ['H', 'i'])
        { Machine.fresh Char with generated_type := some char_marker } =
      .ok ({ value_ := hello_t.yield_label, p := ['i'], yield := { value_ := 0 } },
        { generated_result := some 0, generated_type := some char_marker,
          mem := store (Machine.fresh Char).mem 0 'H' }) ∧
    ∃ g1, generator hello_body char_marker (hello_t.ctor 0 ['H', 'i']) (Machine.fresh Char) =
        .ok (g1, { generated_result := some 0, generated_type := some char_marker,
                   mem := store (Machine.fresh Char).mem 0 'H' }) ∧
      g1.resumable_.body_.body_ =
        { value_ := hello_t.yield_label, p := ['i'], yield := { value_ := 0 } } ∧
      generator_t.iterator.deref g1
        { generated_result := some 0, generated_type := some char_marker,
          mem := store (Machine.fresh Char).mem 0 'H' } = some 'H' :=
  ⟨rfl, rfl, (yield_publishes_value hello_body char_marker { value_ := 0 } 'H'
    (hello_t.ctor 0 ['H', 'i'])
    { value_ := hello_t.yield_label, p := ['i'], yield := { value_ := 0 } }
    { Machine.fresh Char with generated_type := some char_marker }
    { generated_result := some 0, generated_type := some char_marker,
      mem := store (Machine.fresh Char).mem 0 'H' } rfl rfl).2.2.2.2 (Machine.fresh Char) rfl⟩

/-- C13 (one slot for the whole thread): two generators of `char`, the second built while the
first is live.  On a fresh thread `hello("Hi")` at address `1` hands out `H`; once `hello("xy")`
has been built at address `2` on the same thread the token of the first generator, which has not
been advanced, dereferences to `x`, and after `++` on the second generator to `y`: values
yielded by the body of the second generator.  Every call returned, so no assertion fired. -/
theorem interleaved_generators_share_slot :
    ∃ (g1 g2 g3 : generator_t hello_t) (m1 m2 m3 : Machine Char),
      hello 1 ['H', 'i'] (Machine.fresh Char) = .ok (g1, m1) ∧
      generator_t.iterator.eq g1 g1.end_ = false ∧
      generator_t.iterator.deref g1 m1 = some 'H' ∧
      hello 2 ['x', 'y'] m1 = .ok (g2, m2) ∧
      generator_t.iterator.eq g2 g2.end_ = false ∧
      generator_t.iterator.deref g1 m2 = some 'x' ∧
      generator_t.iterator.incr hello_body char_marker g2 m2 = .ok (g3, m3) ∧
      generator_t.iterator.eq g3 g3.end_ = false ∧
      generator_t.iterator.eq g1 g1.end_ = false ∧
      generator_t.iterator.deref g1 m3 = some 'y' :=
  ⟨_, _, _, _, _, _, rfl, by decide, by decide, rfl, by decide, by decide, rfl, by decide,
    by decide, by decide⟩

/-- C14 (a suspension without a yield): the body `stutter_t<char>` with `v = 'a'` yields `a` on
its first step, suspends on its second step without calling yield and without touching the
thread's storage, and completes on its third.  Its generator hands the consumer loop two
elements, `a` and `a` again: the second one is the value left by the first step, not one
produced by the step that the second resume ran. -/
theorem silent_suspension_repeats_value :
    ∃ (s1 s2 s3 : stutter_t Char) (g0 g1 : generator_t (stutter_t Char))
      (m1 m2 : Machine Char),
      YieldsStep (stutter_body char_marker) char_marker
        { value_ := 0, v := 'a', yield := { value_ := 0 } } 'a' s1 ∧
      (∀ m, (stutter_body char_marker).call s1 m = .ok (s2, m)) ∧
      (stutter_body char_marker).is_complete s2 = false ∧
      CompletesStep (stutter_body char_marker) s2 s3 ∧
      generator (stutter_body char_marker) char_marker
        { value_ := 0, v := 'a', yield := { value_ := 0 } } (Machine.fresh Char) =
          .ok (g0, m1) ∧
      for_each (stutter_body char_marker) char_marker 2 g0 m1 [] =
        .finished ['a', 'a'] g1 m2 ∧
      generator_t.iterator.eq g1 g1.end_ = true ∧
      m2.generated_result = m1.generated_result ∧ m2.mem = m1.mem := by
  refine ⟨{ value_ := 1, v := 'a', yield := { value_ := 0 } },
    { value_ := 2, v := 'a', yield := { value_ := 0 } },
    { value_ := -1, v := 'a', yield := { value_ := 0 } }, _, _, _, _,
    ⟨rfl, { value_ := 0 }, fun m m1 hy => ?_⟩, fun m => rfl, rfl, ⟨rfl, fun m => rfl⟩,
    rfl, rfl, rfl, rfl, rfl⟩
  simp [stutter_body, stutter_t.call, hy]

/-- C15 (the marker of a sole generator): for a body that reaches the thread's storage only
through `yield_t<T>`, driven by the only generator of its thread, no assertion fails: whatever
the marker was before, every resume of the new generator returns and leaves the marker of `T`
published, every body step returns and leaves it so, and the consumer loop never ends in an
abort. -/
theorem sole_generator_marker_holds {σ T : Type} (b : Body σ T) (mT : Marker)
    (h : YieldsOnlyThrough b mT) (s : σ) (m : Machine T) (k : Nat) :
    (∃ g1 m1, resume_n b mT (k + 1) (generator_t.init s, m) = .ok (g1, m1) ∧
      m1.generated_type = some mT) ∧
    (∃ s1 m1, body_n b (k + 1) (s, { m with generated_type := some mT }) = .ok (s1, m1) ∧
      m1.generated_type = some mT) ∧
    (∃ g0 m0, generator b mT s m = .ok (g0, m0) ∧ m0.generated_type = some mT ∧
      ∀ fuel out1 g1 m1, for_each b mT fuel g0 m0 [] ≠ .aborted out1 g1 m1) := by
  refine ⟨resume_n_init_marker b mT h s m k,
    body_n_marker b mT h s { m with generated_type := some mT } rfl (k + 1), ?_⟩
  obtain ⟨g0, m0, h1, h2, h3⟩ := resume_init_marker b mT h s m
  exact ⟨g0, m0, h1, h2, fun fuel => for_each_marker b mT h fuel g0 m0 [] h2 h3⟩

/-- Witness for C15: the body of `hello("Hi")` on a thread whose marker is the one of another
type before the generator is built. -/
theorem sole_generator_marker_holds_witness :
    YieldsOnlyThrough hello_body char_marker ∧
    (∃ g1 m1, resume_n hello_body char_marker (2 + 1)
        (generator_t.init (hello_t.ctor 0 ['H', 'i']),
          { generated_result := none, generated_type := some 2, mem := fun _ => none }) =
        .ok (g1, m1) ∧
      m1.generated_type = some char_marker) ∧
    (∃ s1 m1, body_n hello_body (2 + 1) (hello_t.ctor 0 ['H', 'i'],
        { ({ generated_result := none, generated_type := some 2, mem := fun _ => none } :
            Machine Char) with generated_type := some char_marker }) = .ok (s1, m1) ∧
      m1.generated_type = some char_marker) ∧
    (∃ g0 m0, generator hello_body char_marker (hello_t.ctor 0 ['H', 'i'])
        { generated_result := none, generated_type := some 2, mem := fun _ => none } =
        .ok (g0, m0) ∧ m0.generated_type = some char_marker ∧
      ∀ fuel out1 g1 m1,
        for_each hello_body char_marker fuel g0 m0 [] ≠ .aborted out1 g1 m1) :=
  ⟨hello_yields_only, sole_generator_marker_holds hello_body char_marker hello_yields_only
    (hello_t.ctor 0 ['H', 'i'])
    { generated_result := none, generated_type := some 2, mem := fun _ => none } 2⟩

/-- C16 (a foreign generator in between): generator `A` over `T` is suspended between two
steps, and its body will execute a yield, at once or after `i` steps that suspend without
touching the storage.  A generator over another type `U` (the two types are told apart by their
markers, the cells of the thread hold values of either), with a body that reaches the storage
only through `yield_t<U>`, is built on the same thread and advanced any number of times, to
completion or not: every one of its resumes returns and leaves the marker of `U`.  Then `A` still
takes its `i` silent steps, and the `++` whose step executes the yield aborts at the assertion,
with nothing written. -/
theorem foreign_generator_breaks_yield {σA σB V : Type} (bA : Body σA V) (bB : Body σB V)
    (mT mU : Marker) (hne : mU ≠ mT) (hB : YieldsOnlyThrough bB mU) (sA : σA) (i : Nat)
    (hA : YieldsNext bA mT sA i) (sB : σB) (m : Machine V) (j : Nat) :
    ∃ gB m2, resume_n bB mU (j + 1) (generator_t.init sB, m) = .ok (gB, m2) ∧
      m2.generated_type = some mU ∧
      ∃ sA1 sA2, resume_n bA mT i (suspended sA, m2) = .ok (suspended sA1, m2) ∧
        generator_t.iterator.incr bA mT (suspended sA1) m2 = .fatal (suspended sA2, m2) := by
  obtain ⟨gB, m2, h1, h2⟩ := resume_n_init_marker bB mU hB sB m j
  obtain ⟨sA1, hs1, y, v, hy⟩ := resume_n_silent bA mT m2 i sA hA
  have hm : m2.generated_type ≠ some mT := by
    rw [h2]
    intro hcon
    exact hne (Option.some.inj hcon)
  have hf : yield_t.call mT y v m2 = .fatal m2 := by
    simp [yield_t.call, hm]
  obtain ⟨sA2, hcall⟩ := hy m2 m2 hf
  exact ⟨gB, m2, h1, h2, sA1, sA2, hs1, by
    rw [generator_t.iterator.incr, resume_suspended_call, hcall]⟩

/-- Witness for C16: `A` is the generator of `hello("Hi")` after its constructor, the other
generator, with marker `2`, runs a body that completes on its first step, so it is exhausted
when `A` is advanced. -/
theorem foreign_generator_breaks_yield_witness :
    (2 : Marker) ≠ char_marker ∧
    YieldsOnlyThrough (idle_body : Body coroutine Char) 2 ∧
    YieldsNext hello_body char_marker
      { value_ := hello_t.yield_label, p := ['i'], yield := { value_ := 0 } } 0 ∧
    hello 0 ['H', 'i'] (Machine.fresh Char) =
      .ok (suspended { value_ := hello_t.yield_label, p := ['i'], yield := { value_ := 0 } },
        (hello 0 ['H', 'i'] (Machine.fresh Char)).state.2) ∧
    generator_t.iterator.eq
      (resume_n (idle_body : Body coroutine Char) 2 (0 + 1)
        (generator_t.init coroutine.init,
          (hello 0 ['H', 'i'] (Machine.fresh Char)).state.2)).state.1 {} = true ∧
    ∃ gB m2, resume_n (idle_body : Body coroutine Char) 2 (0 + 1)
        (generator_t.init coroutine.init, (hello 0 ['H', 'i'] (Machine.fresh Char)).state.2) =
        .ok (gB, m2) ∧
      m2.generated_type = some 2 ∧
      ∃ sA1 sA2, resume_n hello_body char_marker 0
          (suspended { value_ := hello_t.yield_label, p := ['i'], yield := { value_ := 0 } },
            m2) = .ok (suspended sA1, m2) ∧
        generator_t.iterator.incr hello_body char_marker (suspended sA1) m2 =
          .fatal (suspended sA2, m2) :=
  ⟨by decide, idle_yields_only 2,
    YieldsNext.now (hello_starts_with_yield 0 'i' [] _ (Or.inr rfl) (by decide)),
    rfl, by decide,
    foreign_generator_breaks_yield hello_body (idle_body : Body coroutine Char) char_marker 2
      (by decide) (idle_yields_only 2) _ 0
      (YieldsNext.now (hello_starts_with_yield 0 'i' [] _ (Or.inr rfl) (by decide)))
      coroutine.init (hello 0 ['H', 'i'] (Machine.fresh Char)).state.2 0⟩

end P1134
